import Mathlib

/-!
Verification of the account-forecaster core (recurring-pattern detector,
occurrence calculator, forecast engine) against its specification.

All `Date` values in the source are pinned to a fixed time-of-day (UTC noon),
so a date is modelled as a calendar-day triple (year, month, day) with the
JavaScript conventions: `month` is 0-indexed, `day` is 1-based.  Comparisons
of `Date` objects compare their time values, which for noon-pinned dates is
exactly comparison of day numbers; `toISOString().split('T')[0]` keys are in
bijection with valid triples, so bucket keys are modelled by the triples
themselves.  JavaScript numbers are modelled as exact rationals.
-/

namespace AccountForecaster

unseal Rat.add Rat.mul Rat.inv Rat.sub Rat.ofScientific

/-- A JavaScript `Date` pinned to UTC noon: a proleptic-Gregorian calendar day. -/
structure JSDate where
  year : Nat
  month : Nat
  day : Nat
deriving DecidableEq, Repr

/-- Gregorian leap-year rule. -/
def isLeapYear (y : Nat) : Bool :=
  (y % 4 == 0 && y % 100 != 0) || y % 400 == 0

/-- Number of days in month `m` (0-indexed) of year `y`; total with junk months mapped to 31. -/
def daysInMonth (y m : Nat) : Nat :=
  if m = 1 then (if isLeapYear y then 29 else 28)
  else if m = 3 ∨ m = 5 ∨ m = 8 ∨ m = 10 then 30
  else 31

/-- Cumulative day counts before each month in a non-leap year (index 12 = full year). -/
def cumDays (m : Nat) : Nat :=
  match m with
  | 0 => 0 | 1 => 31 | 2 => 59 | 3 => 90 | 4 => 120 | 5 => 151
  | 6 => 181 | 7 => 212 | 8 => 243 | 9 => 273 | 10 => 304 | 11 => 334
  | _ => 365

/-- Days elapsed in year `y` before month `m` begins. -/
def daysBeforeMonth (y m : Nat) : Nat :=
  cumDays m + (if 2 ≤ m ∧ isLeapYear y then 1 else 0)

/-- Length of year `y` in days. -/
def yearLength (y : Nat) : Nat := if isLeapYear y then 366 else 365

/-- Days elapsed from year 0 up to the start of year `y`. -/
def yearDays (y : Nat) : Nat :=
  (List.range y).foldl (fun a yy => a + yearLength yy) 0

/-- Day number of a date: days since 0000-01-01 (proleptic Gregorian). -/
def dayNumber (t : JSDate) : Nat :=
  yearDays t.year + daysBeforeMonth t.year t.month + (t.day - 1)

/-- A triple that denotes an actual calendar day. -/
def ValidDate (t : JSDate) : Prop :=
  t.month < 12 ∧ 1 ≤ t.day ∧ t.day ≤ daysInMonth t.year t.month

instance (t : JSDate) : Decidable (ValidDate t) := by
  unfold ValidDate; infer_instance

/-- The calendar day after `t`. -/
def succDay (t : JSDate) : JSDate :=
  if t.day < daysInMonth t.year t.month then ⟨t.year, t.month, t.day + 1⟩
  else if t.month < 11 then ⟨t.year, t.month + 1, 1⟩
  else ⟨t.year + 1, 0, 1⟩

/-- Add `n` calendar days to `t`. -/
def addDays (t : JSDate) : Nat → JSDate
  | 0 => t
  | n + 1 => succDay (addDays t n)

theorem yearDays_succ (y : Nat) :
    yearDays (y + 1) = yearDays y + yearLength y := by
  simp [yearDays, List.range_succ]

theorem daysInMonth_ge (y m : Nat) : 28 ≤ daysInMonth y m := by
  unfold daysInMonth
  split_ifs <;> omega

theorem daysInMonth_le (y m : Nat) : daysInMonth y m ≤ 31 := by
  unfold daysInMonth
  split_ifs <;> omega

theorem daysBeforeMonth_succ (y m : Nat) (hm : m < 12) :
    daysBeforeMonth y (m + 1) = daysBeforeMonth y m + daysInMonth y m := by
  interval_cases m <;>
    cases h : isLeapYear y <;>
      simp [daysBeforeMonth, cumDays, daysInMonth, h]

theorem daysBeforeMonth_twelve (y : Nat) :
    daysBeforeMonth y 12 = yearLength y := by
  cases h : isLeapYear y <;> simp [daysBeforeMonth, cumDays, yearLength, h]

theorem dayNumber_succDay (t : JSDate) (h : ValidDate t) :
    dayNumber (succDay t) = dayNumber t + 1 := by
  obtain ⟨hm, hd1, hd2⟩ := h
  unfold succDay
  split_ifs with h1 h2
  · simp only [dayNumber]
    omega
  · have hd : t.day = daysInMonth t.year t.month := by omega
    have hs := daysBeforeMonth_succ t.year t.month hm
    simp only [dayNumber]
    omega
  · have hm11 : t.month = 11 := by omega
    have h334 : daysBeforeMonth t.year 11 + daysInMonth t.year 11 = yearLength t.year := by
      have hs := daysBeforeMonth_succ t.year 11 (by omega)
      rw [daysBeforeMonth_twelve] at hs
      omega
    have hys := yearDays_succ t.year
    have hz0 : daysBeforeMonth (t.year + 1) 0 = 0 := by
      simp [daysBeforeMonth, cumDays]
    simp only [dayNumber, hz0]
    rw [hm11] at hd2 h1 ⊢
    omega

theorem validDate_succDay (t : JSDate) (h : ValidDate t) :
    ValidDate (succDay t) := by
  obtain ⟨hm, hd1, hd2⟩ := h
  unfold succDay
  split_ifs with h1 h2
  · exact ⟨by simpa using hm, by simp, by simpa using h1⟩
  · exact ⟨by simp; omega, by simp, by simpa using (daysInMonth_ge t.year (t.month + 1)).trans' (by omega)⟩
  · exact ⟨by simp, by simp, by simpa using (daysInMonth_ge (t.year + 1) 0).trans' (by omega)⟩

theorem validDate_addDays (t : JSDate) (h : ValidDate t) (n : Nat) :
    ValidDate (addDays t n) := by
  induction n with
  | zero => exact h
  | succ n ih => exact validDate_succDay _ ih

theorem dayNumber_addDays (t : JSDate) (h : ValidDate t) (n : Nat) :
    dayNumber (addDays t n) = dayNumber t + n := by
  induction n with
  | zero => rfl
  | succ n ih =>
      have hs := dayNumber_succDay (addDays t n) (validDate_addDays t h n)
      show dayNumber (succDay (addDays t n)) = dayNumber t + (n + 1)
      omega

theorem day_succDay_le (t : JSDate) : (succDay t).day ≤ t.day + 1 := by
  unfold succDay
  split_ifs
  · exact Nat.le_refl _
  · exact Nat.le_add_left 1 t.day
  · exact Nat.le_add_left 1 t.day

theorem day_addDays_le (t : JSDate) (n : Nat) : (addDays t n).day ≤ t.day + n := by
  induction n with
  | zero => exact le_refl _
  | succ n ih =>
      have hs := day_succDay_le (addDays t n)
      show (succDay (addDays t n)).day ≤ t.day + (n + 1)
      omega

theorem addDays_addDays (t : JSDate) (m n : Nat) :
    addDays (addDays t m) n = addDays t (m + n) := by
  induction n with
  | zero => rfl
  | succ n ih =>
      show succDay (addDays (addDays t m) n) = addDays t (m + (n + 1))
      rw [ih]
      rfl

/-- First day of month index `n` (a month index counts 12 months per year). -/
def monthStart (n : Nat) : JSDate := ⟨n / 12, n % 12, 1⟩

theorem validDate_monthStart (n : Nat) : ValidDate (monthStart n) := by
  refine ⟨Nat.mod_lt _ (by omega), le_refl 1, ?_⟩
  have := daysInMonth_ge (n / 12) (n % 12)
  simp only [monthStart]
  omega

theorem monthStart_of_lt (q r : Nat) (h : r < 12) :
    monthStart (12 * q + r) = ⟨q, r, 1⟩ := by
  have h1 : (12 * q + r) / 12 = q := by omega
  have h2 : (12 * q + r) % 12 = r := by omega
  simp [monthStart, h1, h2]

theorem dayNumber_monthStart_succ (n : Nat) :
    dayNumber (monthStart (n + 1)) =
      dayNumber (monthStart n) + daysInMonth (n / 12) (n % 12) := by
  obtain ⟨q, r, hr, rfl⟩ : ∃ q r, r < 12 ∧ n = 12 * q + r :=
    ⟨n / 12, n % 12, Nat.mod_lt _ (by omega), by omega⟩
  have hq : (12 * q + r) / 12 = q := by omega
  have hm : (12 * q + r) % 12 = r := by omega
  rw [hq, hm, monthStart_of_lt q r hr]
  rcases Nat.lt_or_ge r 11 with h11 | h11
  · have : 12 * q + r + 1 = 12 * q + (r + 1) := by omega
    rw [this, monthStart_of_lt q (r + 1) (by omega)]
    simp [dayNumber]
    have := daysBeforeMonth_succ q r (by omega)
    omega
  · have hr11 : r = 11 := by omega
    subst hr11
    have : 12 * q + 11 + 1 = 12 * (q + 1) + 0 := by omega
    rw [this, monthStart_of_lt (q + 1) 0 (by omega)]
    simp [dayNumber]
    have h1 := daysBeforeMonth_succ q 11 (by omega)
    rw [daysBeforeMonth_twelve] at h1
    have h2 := yearDays_succ q
    simp [daysBeforeMonth, cumDays] at *
    omega

theorem dayNumber_monthStart_add_ge (n k : Nat) :
    dayNumber (monthStart n) + 28 * k ≤ dayNumber (monthStart (n + k)) := by
  induction k with
  | zero => simp
  | succ k ih =>
      have h1 := dayNumber_monthStart_succ (n + k)
      have h2 := daysInMonth_ge ((n + k) / 12) ((n + k) % 12)
      have h3 : n + (k + 1) = (n + k) + 1 := by omega
      rw [h3]
      omega

theorem dayNumber_decomp (t : JSDate) (h : ValidDate t) :
    dayNumber t = dayNumber (monthStart (12 * t.year + t.month)) + (t.day - 1) := by
  rw [monthStart_of_lt t.year t.month h.1]
  simp [dayNumber]

theorem daysBeforeMonth_mono (y : Nat) {m m' : Nat} (h : m ≤ m') (h12 : m' ≤ 12) :
    daysBeforeMonth y m ≤ daysBeforeMonth y m' := by
  induction m' with
  | zero =>
      have hm0 : m = 0 := by omega
      rw [hm0]
  | succ k ih =>
      rcases Nat.lt_or_ge m (k + 1) with hlt | hge
      · have h1 := ih (by omega) (by omega)
        have h2 := daysBeforeMonth_succ y k (by omega)
        omega
      · have hmk : m = k + 1 := by omega
        rw [hmk]

theorem offset_lt_yearLength (t : JSDate) (h : ValidDate t) :
    daysBeforeMonth t.year t.month + (t.day - 1) < yearLength t.year := by
  obtain ⟨hm, hd1, hd2⟩ := h
  have h1 := daysBeforeMonth_succ t.year t.month hm
  have h2 := daysBeforeMonth_mono t.year (show t.month + 1 ≤ 12 by omega) (le_refl 12)
  have h3 := daysBeforeMonth_twelve t.year
  omega

theorem yearDays_mono {y y' : Nat} (h : y ≤ y') : yearDays y ≤ yearDays y' := by
  induction y' with
  | zero =>
      have hy0 : y = 0 := by omega
      rw [hy0]
  | succ k ih =>
      rcases Nat.lt_or_ge y (k + 1) with hlt | hge
      · have h1 := ih (by omega)
        have h2 := yearDays_succ k
        omega
      · have hyk : y = k + 1 := by omega
        rw [hyk]

theorem dayNumber_inj {t u : JSDate} (ht : ValidDate t) (hu : ValidDate u)
    (h : dayNumber t = dayNumber u) : t = u := by
  obtain ⟨ty, tm, td⟩ := t
  obtain ⟨uy, um, ud⟩ := u
  obtain ⟨htm, htd1, htd2⟩ := ht
  obtain ⟨hum, hud1, hud2⟩ := hu
  simp only [dayNumber] at h
  simp only at htm htd1 htd2 hum hud1 hud2 h
  have hofft : daysBeforeMonth ty tm + (td - 1) < yearLength ty :=
    offset_lt_yearLength ⟨ty, tm, td⟩ ⟨htm, htd1, htd2⟩
  have hoffu : daysBeforeMonth uy um + (ud - 1) < yearLength uy :=
    offset_lt_yearLength ⟨uy, um, ud⟩ ⟨hum, hud1, hud2⟩
  have hy : ty = uy := by
    rcases Nat.lt_trichotomy ty uy with hlt | heq | hgt
    · have h1 := yearDays_succ ty
      have h2 := yearDays_mono (show ty + 1 ≤ uy by omega)
      omega
    · exact heq
    · have h1 := yearDays_succ uy
      have h2 := yearDays_mono (show uy + 1 ≤ ty by omega)
      omega
  subst hy
  have hm : tm = um := by
    rcases Nat.lt_trichotomy tm um with hlt | heq | hgt
    · have h1 := daysBeforeMonth_succ ty tm htm
      have h2 := daysBeforeMonth_mono ty (show tm + 1 ≤ um by omega) (by omega)
      omega
    · exact heq
    · have h1 := daysBeforeMonth_succ ty um hum
      have h2 := daysBeforeMonth_mono ty (show um + 1 ≤ tm by omega) (by omega)
      omega
  subst hm
  have hd : td = ud := by omega
  rw [hd]

/-- MakeDay semantics shared by the JS date setters: normalize the month into
    the year, take the first of that month, then add `dd - 1` days.  Faithful
    for `dd ≥ 1` (the data model restricts day-of-month to 1..31). -/
def jsMakeDay (y mm dd : Nat) : JSDate := addDays (monthStart (12 * y + mm)) (dd - 1)

/-- Models `d.setMonth(d.getMonth() + k)`. -/
def jsAddMonths (t : JSDate) (k : Nat) : JSDate := jsMakeDay t.year (t.month + k) t.day

/-- Models `d.setDate(k)`. -/
def jsSetDate (t : JSDate) (k : Nat) : JSDate := jsMakeDay t.year t.month k

/-- Models `d.setFullYear(y)`. -/
def jsSetYear (t : JSDate) (y : Nat) : JSDate := jsMakeDay y t.month t.day

/-- Models `d.getDay()`: weekday with 0 = Sunday; 0000-01-01 is a Saturday. -/
def getDay (t : JSDate) : Nat := (dayNumber t + 6) % 7

theorem validDate_jsMakeDay (y mm dd : Nat) : ValidDate (jsMakeDay y mm dd) :=
  validDate_addDays _ (validDate_monthStart _) _

theorem dayNumber_jsMakeDay (y mm dd : Nat) :
    dayNumber (jsMakeDay y mm dd) = dayNumber (monthStart (12 * y + mm)) + (dd - 1) :=
  dayNumber_addDays _ (validDate_monthStart _) _

theorem day_jsMakeDay_le (y mm dd : Nat) : (jsMakeDay y mm dd).day ≤ 1 + (dd - 1) :=
  day_addDays_le _ _

theorem getDay_lt (t : JSDate) : getDay t < 7 := Nat.mod_lt _ (by omega)

theorem getDay_addDays (t : JSDate) (h : ValidDate t) (n : Nat) :
    getDay (addDays t n) = (getDay t + n) % 7 := by
  simp only [getDay, dayNumber_addDays t h n]
  omega

/-! ### Merchant-name normalizer

`normalizeMerchantName` models

    name.toLowerCase().replace(/\s+/g, ' ').replace(/[^a-z0-9\s]/g, '').trim()

over the characters of the string (ASCII ranges; the merchant names involved
are ASCII). -/

theorem charEqOfToNat {c d : Char} (h : c.toNat = d.toNat) : c = d :=
  Char.ext (UInt32.ext h)

/-- ASCII lowercasing, as `toLowerCase` acts on the A-Z range. -/
def jsToLower (c : Char) : Char :=
  if 65 ≤ c.toNat ∧ c.toNat ≤ 90 then Char.ofNat (c.toNat + 32) else c

/-- The ASCII whitespace class of the `\s` regex escape. -/
def isJsWs (c : Char) : Bool :=
  c.toNat = 32 || c.toNat = 9 || c.toNat = 10 || c.toNat = 13 || c.toNat = 11 || c.toNat = 12

/-- One pass of `replace(/\s+/g, ' ')`: each maximal whitespace run becomes one
    space; the flag records whether the previous character was whitespace. -/
def collapseWsAux : Bool → List Char → List Char
  | _, [] => []
  | prevWs, c :: cs =>
    if isJsWs c then
      if prevWs then collapseWsAux true cs
      else ' ' :: collapseWsAux true cs
    else c :: collapseWsAux false cs

def collapseWs (l : List Char) : List Char := collapseWsAux false l

/-- Characters kept by `replace(/[^a-z0-9\s]/g, '')`. -/
def isKeptChar (c : Char) : Bool :=
  (97 ≤ c.toNat && c.toNat ≤ 122) || (48 ≤ c.toNat && c.toNat ≤ 57) || isJsWs c

/-- Models `trim()`: remove whitespace from both ends. -/
def dropTrailingWs (l : List Char) : List Char :=
  (l.reverse.dropWhile isJsWs).reverse

def trimWs (l : List Char) : List Char :=
  dropTrailingWs (l.dropWhile isJsWs)

def normChars (l : List Char) : List Char :=
  trimWs ((collapseWs (l.map jsToLower)).filter isKeptChar)

/-- Normalize merchant name for grouping. -/
def normalizeMerchantName (s : String) : String := ⟨normChars s.data⟩

/-- In the output of a collapse pass, every whitespace character is a plain space. -/
theorem collapseWsAux_ws_eq_space (b : Bool) (l : List Char) :
    ∀ c ∈ collapseWsAux b l, isJsWs c = true → c = ' ' := by
  induction l generalizing b with
  | nil => simp [collapseWsAux]
  | cons d ds ih =>
      intro c hc hws
      simp only [collapseWsAux] at hc
      by_cases hd : isJsWs d = true
      · rw [if_pos hd] at hc
        cases b with
        | true =>
            rw [if_pos rfl] at hc
            exact ih true c hc hws
        | false =>
            rw [if_neg (by simp)] at hc
            rcases List.mem_cons.mp hc with h | h
            · exact h
            · exact ih true c h hws
      · rw [if_neg hd] at hc
        rcases List.mem_cons.mp hc with h | h
        · rw [h] at hws; exact absurd hws hd
        · exact ih false c h hws

/-- Every character of a collapse pass output is a space or a character of the input. -/
theorem collapseWsAux_mem (b : Bool) (l : List Char) :
    ∀ c ∈ collapseWsAux b l, c = ' ' ∨ c ∈ l := by
  induction l generalizing b with
  | nil => simp [collapseWsAux]
  | cons d ds ih =>
      intro c hc
      simp only [collapseWsAux] at hc
      by_cases hd : isJsWs d = true
      · rw [if_pos hd] at hc
        cases b with
        | true =>
            rw [if_pos rfl] at hc
            rcases ih true c hc with h | h
            · exact Or.inl h
            · exact Or.inr (List.mem_cons_of_mem _ h)
        | false =>
            rw [if_neg (by simp)] at hc
            rcases List.mem_cons.mp hc with h | h
            · exact Or.inl h
            · rcases ih true c h with h2 | h2
              · exact Or.inl h2
              · exact Or.inr (List.mem_cons_of_mem _ h2)
      · rw [if_neg hd] at hc
        rcases List.mem_cons.mp hc with h | h
        · exact Or.inr (h ▸ List.mem_cons_self _ _)
        · rcases ih false c h with h2 | h2
          · exact Or.inl h2
          · exact Or.inr (List.mem_cons_of_mem _ h2)

/-- No two adjacent whitespace characters in a collapse pass output. -/
def NoWsPair (l : List Char) : Prop :=
  List.Chain' (fun a c => ¬(isJsWs a = true ∧ isJsWs c = true)) l

theorem collapseWsAux_noWsPair (l : List Char) :
    (∀ c ∈ (collapseWsAux true l).head?, isJsWs c = false)
      ∧ NoWsPair (collapseWsAux true l) ∧ NoWsPair (collapseWsAux false l) := by
  induction l with
  | nil => refine ⟨by simp [collapseWsAux], ?_, ?_⟩ <;> simp [collapseWsAux, NoWsPair]
  | cons d ds ih =>
      obtain ⟨ihHead, ihTrue, ihFalse⟩ := ih
      by_cases hd : isJsWs d = true
      · refine ⟨?_, ?_, ?_⟩
        · simpa [collapseWsAux, hd] using ihHead
        · simpa [collapseWsAux, hd] using ihTrue
        · simp only [collapseWsAux, hd, if_pos, if_true]
          rw [if_neg (by simp)]
          refine List.chain'_cons'.mpr ⟨?_, ihTrue⟩
          intro c hc
          have := ihHead c hc
          intro hcon
          rw [this] at hcon
          exact absurd hcon.2 (by simp)
      · have hstep : ∀ bb : Bool, collapseWsAux bb (d :: ds) = d :: collapseWsAux false ds := by
          intro bb
          simp [collapseWsAux, hd]
        refine ⟨?_, ?_, ?_⟩
        · rw [hstep true]
          intro c hc
          simp only [List.head?_cons, Option.mem_def, Option.some.injEq] at hc
          rw [← hc]
          simpa using hd
        · rw [hstep true]
          refine List.chain'_cons'.mpr ⟨?_, ihFalse⟩
          intro c hc hcon
          exact absurd hcon.1 hd
        · rw [hstep false]
          refine List.chain'_cons'.mpr ⟨?_, ihFalse⟩
          intro c hc hcon
          exact absurd hcon.1 hd

theorem collapseWsAux_true_eq_false (l : List Char)
    (hhead : ∀ c ∈ l.head?, isJsWs c = false) :
    collapseWsAux true l = collapseWsAux false l := by
  cases l with
  | nil => rfl
  | cons d ds =>
      have hd : isJsWs d = false := hhead d (by simp)
      simp [collapseWsAux, hd]

/-- A collapse pass is the identity on strings whose whitespace is all plain
    spaces with no two adjacent. -/
theorem collapseWs_id (l : List Char) (hsp : ∀ c ∈ l, isJsWs c = true → c = ' ')
    (hnp : NoWsPair l) : collapseWs l = l := by
  unfold collapseWs
  induction l with
  | nil => rfl
  | cons d ds ih =>
      have hnp' : NoWsPair ds := (List.chain'_cons'.mp hnp).2
      have hds : collapseWsAux false ds = ds :=
        ih (fun c hc => hsp c (List.mem_cons_of_mem _ hc)) hnp'
      by_cases hd : isJsWs d = true
      · have hdsp : d = ' ' := hsp d (List.mem_cons_self _ _) hd
        have hhead : ∀ c ∈ ds.head?, isJsWs c = false := by
          intro c hc
          have := (List.chain'_cons'.mp hnp).1 c hc
          by_contra hcon
          exact this ⟨hd, by simpa using hcon⟩
        simp only [collapseWsAux, hd, if_true]
        rw [if_neg (by simp), collapseWsAux_true_eq_false ds hhead, hds, hdsp]
      · simp only [collapseWsAux, hd]
        rw [if_neg (by simp [hd]), hds]

theorem head_dropWhile_false (p : Char → Bool) (l : List Char) :
    ∀ c ∈ (l.dropWhile p).head?, p c = false := by
  induction l with
  | nil => simp [List.dropWhile]
  | cons d ds ih =>
      by_cases hd : p d = true
      · simpa [List.dropWhile, hd] using ih
      · intro c hc
        simp only [List.dropWhile, hd] at hc
        simp only [List.head?_cons, Option.mem_def, Option.some.injEq] at hc
        rw [← hc]
        simpa using hd

theorem dropWhile_eq_self_of_head (p : Char → Bool) (l : List Char)
    (h : ∀ c ∈ l.head?, p c = false) : l.dropWhile p = l := by
  cases l with
  | nil => rfl
  | cons d ds =>
      have hd : p d = false := h d (by simp)
      simp [List.dropWhile, hd]

theorem trimWs_id (l : List Char) (hh : ∀ c ∈ l.head?, isJsWs c = false)
    (hl : ∀ c ∈ l.getLast?, isJsWs c = false) : trimWs l = l := by
  unfold trimWs dropTrailingWs
  rw [dropWhile_eq_self_of_head _ _ hh]
  rw [dropWhile_eq_self_of_head _ _ (by simpa [List.head?_reverse] using hl)]
  exact List.reverse_reverse l

theorem jsToLower_id_of_kept (c : Char) (h : isKeptChar c = true) : jsToLower c = c := by
  have hn : ¬(65 ≤ c.toNat ∧ c.toNat ≤ 90) := by
    simp only [isKeptChar, isJsWs, Bool.or_eq_true, Bool.and_eq_true, decide_eq_true_eq] at h
    omega
  simp [jsToLower, hn]

theorem map_jsToLower_id (l : List Char) (h : ∀ c ∈ l, jsToLower c = c) :
    l.map jsToLower = l := by
  induction l with
  | nil => rfl
  | cons d ds ih =>
      rw [List.map_cons, h d (List.mem_cons_self _ _),
        ih (fun c hc => h c (List.mem_cons_of_mem _ hc))]

theorem mem_trimWs (l : List Char) (c : Char) (h : c ∈ trimWs l) : c ∈ l := by
  unfold trimWs dropTrailingWs at h
  rw [List.mem_reverse] at h
  have h1 := (List.dropWhile_sublist (l := (l.dropWhile isJsWs).reverse) isJsWs).mem h
  rw [List.mem_reverse] at h1
  exact (List.dropWhile_sublist isJsWs).mem h1

theorem trimWs_head (l : List Char) : ∀ c ∈ (trimWs l).head?, isJsWs c = false := by
  intro c hc
  unfold trimWs dropTrailingWs at hc
  obtain ⟨t, ht⟩ := List.dropWhile_suffix (l := (l.dropWhile isJsWs).reverse) isJsWs
  cases hx : (List.dropWhile isJsWs (l.dropWhile isJsWs).reverse).reverse with
  | nil => rw [hx] at hc; simp at hc
  | cons d rest =>
      rw [hx] at hc
      simp only [List.head?_cons, Option.mem_def, Option.some.injEq] at hc
      subst hc
      have hS : List.dropWhile isJsWs (l.dropWhile isJsWs).reverse = (d :: rest).reverse := by
        rw [← hx, List.reverse_reverse]
      have hA : l.dropWhile isJsWs = (d :: rest) ++ t.reverse := by
        have h2 : l.dropWhile isJsWs = (t ++ (d :: rest).reverse).reverse := by
          rw [← hS, ht, List.reverse_reverse]
        rw [h2]
        simp
      exact head_dropWhile_false isJsWs l d (by rw [hA]; rfl)

theorem trimWs_getLast (l : List Char) : ∀ c ∈ (trimWs l).getLast?, isJsWs c = false := by
  intro c hc
  unfold trimWs dropTrailingWs at hc
  rw [List.getLast?_reverse] at hc
  exact head_dropWhile_false isJsWs _ c hc

theorem trimWs_chain (l : List Char) (h : NoWsPair l) : NoWsPair (trimWs l) := by
  unfold NoWsPair at h ⊢
  have hrev : ∀ x : List Char,
      List.Chain' (fun a c => ¬(isJsWs a = true ∧ isJsWs c = true)) x →
      List.Chain' (fun a c => ¬(isJsWs a = true ∧ isJsWs c = true)) x.reverse := by
    intro x hx
    rw [List.chain'_reverse]
    exact hx.imp (fun a b hab hba => hab ⟨hba.2, hba.1⟩)
  unfold trimWs dropTrailingWs
  have h1 := h.suffix (List.dropWhile_suffix isJsWs)
  have h2 := hrev _ h1
  have h3 := h2.suffix (List.dropWhile_suffix isJsWs)
  exact hrev _ h3

theorem normChars_kept (l : List Char) :
    ∀ c ∈ normChars l, isKeptChar c = true ∧ (isJsWs c = true → c = ' ') := by
  intro c hc
  unfold normChars at hc
  have h1 := mem_trimWs _ _ hc
  have h2 := List.mem_filter.mp h1
  refine ⟨h2.2, ?_⟩
  exact collapseWsAux_ws_eq_space false _ c h2.1

theorem collapseWs_kept (l : List Char) (h : ∀ c ∈ l, isKeptChar c = true) :
    ∀ c ∈ collapseWs l, isKeptChar c = true := by
  intro c hc
  rcases collapseWsAux_mem false l c hc with hsp | hmem
  · rw [hsp]; rfl
  · exact h c hmem

/-- The output of two normalizer passes is canonical: kept characters only,
    whitespace is single plain spaces, and no space at either end. -/
theorem normChars_normChars_canon (l : List Char) :
    (∀ c ∈ normChars (normChars l), isKeptChar c = true ∧ (isJsWs c = true → c = ' '))
      ∧ NoWsPair (normChars (normChars l))
      ∧ (∀ c ∈ (normChars (normChars l)).head?, isJsWs c = false)
      ∧ (∀ c ∈ (normChars (normChars l)).getLast?, isJsWs c = false) := by
  set N1 := normChars l with hN1
  have hk1 : ∀ c ∈ N1, isKeptChar c = true := fun c hc => (normChars_kept l c hc).1
  have hmap : N1.map jsToLower = N1 :=
    map_jsToLower_id N1 (fun c hc => jsToLower_id_of_kept c (hk1 c hc))
  have hMkept : ∀ c ∈ collapseWs N1, isKeptChar c = true := collapseWs_kept N1 hk1
  have hfil : (collapseWs N1).filter isKeptChar = collapseWs N1 :=
    List.filter_eq_self.mpr (fun c hc => hMkept c hc)
  have hunf : normChars N1 = trimWs (collapseWs N1) := by
    unfold normChars
    rw [hmap, hfil]
  refine ⟨normChars_kept N1, ?_, ?_, ?_⟩
  · rw [hunf]
    exact trimWs_chain _ (collapseWsAux_noWsPair N1).2.2
  · rw [hunf]
    exact trimWs_head _
  · rw [hunf]
    exact trimWs_getLast _

/-- The normalizer is the identity on canonical character lists. -/
theorem normChars_id_of_canon (l : List Char)
    (hk : ∀ c ∈ l, isKeptChar c = true ∧ (isJsWs c = true → c = ' '))
    (hnp : NoWsPair l)
    (hh : ∀ c ∈ l.head?, isJsWs c = false)
    (hl : ∀ c ∈ l.getLast?, isJsWs c = false) :
    normChars l = l := by
  unfold normChars
  rw [map_jsToLower_id l (fun c hc => jsToLower_id_of_kept c (hk c hc).1)]
  rw [collapseWs_id l (fun c hc => (hk c hc).2) hnp]
  rw [List.filter_eq_self.mpr (fun c hc => (hk c hc).1)]
  exact trimWs_id l hh hl

/-- C10 (counterexample): `normalizeMerchantName` is not idempotent.  Stripping
    a punctuation run that sits between two spaces leaves a double space, which
    a second pass collapses: "a . b" normalizes to "a  b", which re-normalizes
    to "a b". -/
theorem normalizeMerchantName_not_idempotent :
    normalizeMerchantName (normalizeMerchantName "a . b")
      ≠ normalizeMerchantName "a . b" := by
  decide

/-- C10 (amended): re-normalizing is stable from the second application on:
    for every string, a third application of `normalizeMerchantName` agrees
    with the second, so a doubly-normalized grouping key never changes. -/
theorem normalizeMerchantName_double_idempotent (s : String) :
    normalizeMerchantName (normalizeMerchantName (normalizeMerchantName s))
      = normalizeMerchantName (normalizeMerchantName s) := by
  obtain ⟨hkept, hnp, hh, hl⟩ := normChars_normChars_canon s.data
  show (⟨normChars (String.mk (normChars (String.mk (normChars s.data)).data)).data⟩ : String)
      = ⟨normChars (String.mk (normChars s.data)).data⟩
  simp only [String.data]
  rw [normChars_id_of_canon _ hkept hnp hh hl]

/-! ### Data model: recurring patterns and transactions -/

inductive Frequency
  | daily | weekly | biweekly | monthly | quarterly | yearly
deriving DecidableEq, Repr

inductive TransactionType
  | income | expense
deriving DecidableEq, Repr

/-- A persisted `RecurringPattern` row (ids are numeric in the model). -/
structure PatternRow where
  id : Nat
  userId : Nat
  accountId : Nat
  name : String
  merchantName : String
  amount : ℚ
  amountVariance : ℚ
  frequency : Frequency
  dayOfMonth : Option Nat
  dayOfWeek : Option Nat
  startDate : JSDate
  endDate : Option JSDate
  transactionType : TransactionType
  confidence : ℚ
deriving DecidableEq, Repr

/-- A historical transaction as seen by the detector; an absent merchant name
    is the empty string (the JS falsy case). -/
structure HistTxn where
  name : String
  merchantName : String
  amount : ℚ
  date : JSDate
deriving DecidableEq, Repr

/-- Math.round: round half toward positive infinity. -/
def jsRound (q : ℚ) : ℤ := Rat.floor (q + 1 / 2)

/-- Math.round(q * 100) / 100, the two-decimal normalization used for keys. -/
def round2 (q : ℚ) : ℚ := (jsRound (q * 100) : ℚ) / 100

/-- Check if two amounts are similar (relative tolerance, default ±10%). -/
def amountsSimilar (amount1 amount2 : ℚ) (variance : ℚ := 1 / 10) : Bool :=
  let diff := |amount1 - amount2|
  let avg := (|amount1| + |amount2|) / 2
  if avg = 0 then decide (amount1 = amount2) else decide (diff ≤ avg * variance)

/-- `transaction.name || transaction.merchantName || ''`. -/
def txnDisplayName (t : HistTxn) : String :=
  if t.name ≠ "" then t.name else t.merchantName

/-- `transaction.merchantName || transaction.name || ''`. -/
def txnMerchantName (t : HistTxn) : String :=
  if t.merchantName ≠ "" then t.merchantName else t.name

structure TransactionGroup where
  name : String
  merchantName : String
  transactions : List HistTxn
  averageAmount : ℚ
  amountVariance : ℚ
deriving DecidableEq, Repr

/-- A JS `Map` entry list: the group key is `(normalizedName, amount.toFixed(2))`. -/
def GroupKey := String × ℚ
deriving instance DecidableEq for GroupKey

/-- `Map.set`: overwrite the value of an existing key in place, else append. -/
def mapSet (m : List (GroupKey × TransactionGroup)) (k : GroupKey)
    (v : TransactionGroup) : List (GroupKey × TransactionGroup) :=
  match m.findIdx? (fun e => e.1 == k) with
  | some i => m.set i (k, v)
  | none => m ++ [(k, v)]

/-- One step of the grouping loop over transactions. -/
def groupStep (groups : List (GroupKey × TransactionGroup)) (t : HistTxn) :
    List (GroupKey × TransactionGroup) :=
  let normalizedName := normalizeMerchantName (txnDisplayName t)
  let merchantName := txnMerchantName t
  let amount := |t.amount|
  match groups.findIdx? (fun e =>
      normalizeMerchantName e.2.name == normalizedName
        && amountsSimilar e.2.averageAmount amount) with
  | some i =>
      match groups.get? i with
      | some e =>
          let txns := e.2.transactions ++ [t]
          let total := (txns.map (fun u => |u.amount|)).sum
          groups.set i (e.1, { e.2 with
            transactions := txns,
            averageAmount := total / txns.length })
      | none => groups
  | none =>
      mapSet groups (normalizedName, round2 amount)
        { name := txnDisplayName t, merchantName := merchantName,
          transactions := [t], averageAmount := amount,
          amountVariance := amount * (1 / 10) }

/-- Group transactions by merchant/name and similar amounts. -/
def groupTransactions (transactions : List HistTxn) : List TransactionGroup :=
  (transactions.foldl groupStep []).map (fun e => e.2)

structure FrequencyAnalysis where
  frequency : Frequency
  dayOfMonth : Option Nat
  dayOfWeek : Option Nat
  confidence : ℚ
  startDate : JSDate
deriving DecidableEq, Repr

/-- The frequency-bucket classification of the mean interval, together with the
    captured phase and the base confidence `max(0, 1 - stdDev/reference)`. -/
def classifyInterval (avgInterval stdDev : ℚ) (d0 : JSDate) :
    Option (Frequency × Option Nat × Option Nat × ℚ) :=
  if 1 ≤ avgInterval ∧ avgInterval ≤ 2 then
    some (.daily, none, none, max 0 (1 - stdDev / avgInterval))
  else if 5 ≤ avgInterval ∧ avgInterval ≤ 9 then
    some (.weekly, none, some (getDay d0), max 0 (1 - stdDev / 7))
  else if 11 ≤ avgInterval ∧ avgInterval ≤ 17 then
    some (.biweekly, none, some (getDay d0), max 0 (1 - stdDev / 14))
  else if 25 ≤ avgInterval ∧ avgInterval ≤ 35 then
    some (.monthly, some d0.day, none, max 0 (1 - stdDev / 30))
  else if 80 ≤ avgInterval ∧ avgInterval ≤ 100 then
    some (.quarterly, some d0.day, none, max 0 (1 - stdDev / 90))
  else if 350 ≤ avgInterval ∧ avgInterval ≤ 380 then
    some (.yearly, some d0.day, none, max 0 (1 - stdDev / 365))
  else
    none

/-- Insert a transaction into a date-sorted list (structural insertion sort,
    modelling the `sort` by date). -/
def insertByDate (t : HistTxn) : List HistTxn → List HistTxn
  | [] => [t]
  | u :: us =>
      if dayNumber t.date ≤ dayNumber u.date then t :: u :: us
      else u :: insertByDate t us

def sortByDate (l : List HistTxn) : List HistTxn := l.foldr insertByDate []

/-- The interval statistics of a transaction group: mean consecutive-interval
    length in days, its population variance, and the earliest date. -/
def detectorStats (transactions : List HistTxn) : ℚ × ℚ × JSDate :=
  let sorted := sortByDate transactions
  let dates := sorted.map (fun t => t.date)
  let d0 := dates.headD ⟨0, 0, 1⟩
  let intervals : List ℚ := (dates.zip dates.tail).map
    (fun p => ((dayNumber p.2 - dayNumber p.1 : Nat) : ℚ))
  let avgInterval := intervals.sum / (intervals.length : ℚ)
  let variance : ℚ :=
    (intervals.map (fun x => (x - avgInterval) ^ 2)).sum / (intervals.length : ℚ)
  (avgInterval, variance, d0)

/-- Blend the base confidence with the occurrence-count bonus. -/
def blendedConfidence (len : Nat) (freq : Frequency) (conf0 : ℚ) : ℚ :=
  let minOccurrences : ℚ :=
    if freq = .monthly ∨ freq = .quarterly then 3 else 2
  let occurrenceBonus := min 1 (((len : ℚ) - minOccurrences) / 5)
  min 1 (conf0 * (7 / 10) + occurrenceBonus * (3 / 10))

/-- Analyze the frequency pattern of a group of transactions.  `sqrtFn` is the
    square-root oracle standing for `Math.sqrt`; every theorem below holds for
    an arbitrary such function, hence in particular for the real square root. -/
def analyzeFrequency (sqrtFn : ℚ → ℚ) (transactions : List HistTxn) :
    Option FrequencyAnalysis :=
  if transactions.length < 3 then none
  else
    match classifyInterval (detectorStats transactions).1
        (sqrtFn (detectorStats transactions).2.1)
        (detectorStats transactions).2.2 with
    | none => none
    | some (freq, dom, dow, conf0) =>
      if blendedConfidence transactions.length freq conf0 < 3 / 5 then none
      else some ⟨freq, dom, dow, blendedConfidence transactions.length freq conf0,
        (detectorStats transactions).2.2⟩

/-- Determine transaction type (income or expense) by majority vote. -/
def determineTransactionType (transactions : List HistTxn) : TransactionType :=
  if (transactions.filter (fun t => decide (0 < t.amount))).length
      > (transactions.filter (fun t => decide (t.amount < 0))).length
  then .income else .expense

/-- The JS `x || null` coercion on an optional number: 0 is falsy. -/
def jsOrNull : Option Nat → Option Nat
  | some 0 => none
  | x => x

/-- Detect recurring patterns from transaction history.  The database fetch is
    abstracted into the `transactions` argument (rows ordered by date); the
    returned patterns are exactly the rows persisted.  Record ids are opaque
    store-generated values and are modelled as 0. -/
def detectPatterns (sqrtFn : ℚ → ℚ) (userId accountId : Nat)
    (transactions : List HistTxn) (minConfidence : ℚ) : List PatternRow :=
  if transactions.length < 3 then []
  else
    (groupTransactions transactions).filterMap (fun g =>
      if g.transactions.length < 3 then none
      else
        match analyzeFrequency sqrtFn g.transactions with
        | none => none
        | some fa =>
          if fa.confidence < minConfidence then none
          else some
            { id := 0, userId := userId, accountId := accountId,
              name := g.name,
              merchantName := normalizeMerchantName g.merchantName,
              amount := g.averageAmount,
              amountVariance := g.amountVariance,
              frequency := fa.frequency,
              dayOfMonth := jsOrNull fa.dayOfMonth,
              dayOfWeek := jsOrNull fa.dayOfWeek,
              startDate := fa.startDate,
              endDate := none,
              transactionType := determineTransactionType g.transactions,
              confidence := fa.confidence })

/-- The pattern created by the create-pattern-from-transaction route: the
    transaction type is inferred from the source transaction's sign, and the
    stored amount is the caller's amount signed by that type (JS falsy check:
    amount 0 falls back to the transaction's own signed amount). -/
def createPatternFromTransaction (userId : Nat) (t : HistTxn) (accountId : Nat)
    (frequency : Frequency) (dayOfMonth dayOfWeek : Option Nat)
    (amount : Option ℚ) (name : Option String) : PatternRow :=
  let transactionType : TransactionType :=
    if 0 < t.amount then .income else .expense
  let patternAmount : ℚ :=
    match amount with
    | some a =>
        if a = 0 then t.amount
        else if transactionType = .expense then -|a| else |a|
    | none => t.amount
  let patternName :=
    match name with
    | some n => if n ≠ "" then n else txnDisplayName t
    | none => if txnDisplayName t ≠ "" then txnDisplayName t else "Recurring Transaction"
  { id := 0, userId := userId, accountId := accountId,
    name := patternName,
    merchantName := normalizeMerchantName (txnMerchantName t),
    amount := patternAmount,
    amountVariance := |patternAmount| * (1 / 10),
    frequency := frequency,
    dayOfMonth := jsOrNull dayOfMonth,
    dayOfWeek := jsOrNull dayOfWeek,
    startDate := t.date,
    endDate := none,
    transactionType := transactionType,
    confidence := 9 / 10 }

/-- The pattern created alongside a recurring manual forecast transaction:
    amount is stored as `Math.abs(amount)` and the phase fields are gated by
    the frequency class (`dayOfWeek` keeps 0, `dayOfMonth` treats 0 as unset). -/
def createManualRecurringPattern (userId accountId : Nat) (name : String)
    (amount : ℚ) (transactionType : TransactionType) (frequency : Frequency)
    (dayOfMonth dayOfWeek : Option Nat) (transactionDate : JSDate)
    (patternEndDate : Option JSDate) : PatternRow :=
  { id := 0, userId := userId, accountId := accountId,
    name := name,
    merchantName := normalizeMerchantName name,
    amount := |amount|,
    amountVariance := |amount| * (1 / 10),
    frequency := frequency,
    dayOfMonth :=
      if frequency = .monthly ∨ frequency = .quarterly ∨ frequency = .yearly
      then jsOrNull dayOfMonth else none,
    dayOfWeek :=
      if frequency = .weekly ∨ frequency = .biweekly
      then dayOfWeek else none,
    startDate := transactionDate,
    endDate := patternEndDate,
    transactionType := transactionType,
    confidence := 9 / 10 }

theorem analyzeFrequency_confidence (sqrtFn : ℚ → ℚ) (l : List HistTxn)
    (fa : FrequencyAnalysis) (h : analyzeFrequency sqrtFn l = some fa) :
    3 / 5 ≤ fa.confidence := by
  unfold analyzeFrequency at h
  split at h
  · exact absurd h (by simp)
  · split at h
    · exact absurd h (by simp)
    · split at h
      · exact absurd h (by simp)
      · rename_i hconf
        simp only [Option.some.injEq] at h
        rw [← h]
        exact le_of_not_lt hconf

theorem detectPatterns_fields (sqrtFn : ℚ → ℚ) (u a : Nat)
    (txns : List HistTxn) (minConf : ℚ) (p : PatternRow)
    (hp : p ∈ detectPatterns sqrtFn u a txns minConf) :
    ∃ (g : TransactionGroup) (fa : FrequencyAnalysis),
      analyzeFrequency sqrtFn g.transactions = some fa
      ∧ ¬(fa.confidence < minConf)
      ∧ p.confidence = fa.confidence
      ∧ p.frequency = fa.frequency
      ∧ p.dayOfMonth = jsOrNull fa.dayOfMonth
      ∧ p.dayOfWeek = jsOrNull fa.dayOfWeek
      ∧ p.amount = g.averageAmount
      ∧ g ∈ groupTransactions txns := by
  unfold detectPatterns at hp
  split at hp
  · exact absurd hp (by simp)
  · obtain ⟨g, hg, heq⟩ := List.mem_filterMap.mp hp
    split at heq
    · exact absurd heq (by simp)
    · cases hfa : analyzeFrequency sqrtFn g.transactions with
      | none => rw [hfa] at heq; exact absurd heq (by simp)
      | some fa =>
          rw [hfa] at heq
          split at heq
          · exact absurd heq (by simp)
          · rename_i fa2 hsome
            injection hsome with hfae
            subst hfae
            split at heq
            · exact absurd heq (by simp)
            · rename_i hgate
              injection heq with heqp
              exact ⟨g, fa, hfa, hgate, by rw [← heqp], by rw [← heqp], by rw [← heqp],
                by rw [← heqp], by rw [← heqp], hg⟩

/-- C4: `detectPatterns` never returns (hence never persists) a pattern whose
    confidence is below `max(minConfidence, 0.6)`: the 0.6 floor is applied in
    `analyzeFrequency` and the caller-supplied `minConfidence` afterwards. -/
theorem detectPatterns_confidence_floor (sqrtFn : ℚ → ℚ) (u a : Nat)
    (txns : List HistTxn) (minConf : ℚ) (p : PatternRow)
    (hp : p ∈ detectPatterns sqrtFn u a txns minConf) :
    max minConf (3 / 5) ≤ p.confidence := by
  obtain ⟨g, fa, hfa, hgate, hconf, -⟩ := detectPatterns_fields sqrtFn u a txns minConf p hp
  rw [hconf]
  exact max_le (le_of_not_lt hgate) (analyzeFrequency_confidence sqrtFn _ fa hfa)

/-- A square-root oracle; on the zero-variance witness inputs below it agrees
    with the real square root. -/
def sqrtZero : ℚ → ℚ := fun _ => 0

/-- Three equal monthly charges, 30 days apart (so the interval variance is 0). -/
def netflixHistory : List HistTxn :=
  [⟨"Netflix", "", -(1599 / 100), ⟨1, 0, 1⟩⟩,
   ⟨"Netflix", "", -(1599 / 100), ⟨1, 0, 31⟩⟩,
   ⟨"Netflix", "", -(1599 / 100), ⟨1, 2, 2⟩⟩]

def netflixPattern : PatternRow :=
  { id := 0, userId := 7, accountId := 8, name := "Netflix",
    merchantName := "netflix", amount := 1599 / 100,
    amountVariance := 1599 / 1000, frequency := .monthly,
    dayOfMonth := some 1, dayOfWeek := none, startDate := ⟨1, 0, 1⟩,
    endDate := none, transactionType := .expense, confidence := 7 / 10 }

/-- C4 (witness): on a concrete three-transaction monthly history with
    `minConfidence = 0.3`, the returned pattern's confidence (0.7) is above
    `max(0.3, 0.6)`. -/
theorem detectPatterns_confidence_floor_witness :
    netflixPattern ∈ detectPatterns sqrtZero 7 8 netflixHistory (3 / 10)
      ∧ max (3 / 10 : ℚ) (3 / 5) ≤ netflixPattern.confidence :=
  ⟨by decide, detectPatterns_confidence_floor sqrtZero 7 8 netflixHistory (3 / 10)
    netflixPattern (by decide)⟩

theorem jsOrNull_isSome (x : Option Nat) (h : (jsOrNull x).isSome) : x.isSome := by
  cases x with
  | none => simp [jsOrNull] at h
  | some n => simp

theorem classifyInterval_phase (avg sd : ℚ) (d0 : JSDate)
    (f : Frequency) (dom dow : Option Nat) (c : ℚ)
    (h : classifyInterval avg sd d0 = some (f, dom, dow, c)) :
    (dom.isSome → f = .monthly ∨ f = .quarterly ∨ f = .yearly)
      ∧ (dow.isSome → f = .weekly ∨ f = .biweekly)
      ∧ ¬(dom.isSome ∧ dow.isSome) := by
  unfold classifyInterval at h
  split_ifs at h <;>
    · simp only [Option.some.injEq, Prod.mk.injEq] at h
      obtain ⟨hf, hdom, hdow, hc⟩ := h
      subst hf
      subst hdom
      subst hdow
      simp

theorem analyzeFrequency_phase (sqrtFn : ℚ → ℚ) (l : List HistTxn)
    (fa : FrequencyAnalysis) (h : analyzeFrequency sqrtFn l = some fa) :
    (fa.dayOfMonth.isSome →
        fa.frequency = .monthly ∨ fa.frequency = .quarterly ∨ fa.frequency = .yearly)
      ∧ (fa.dayOfWeek.isSome → fa.frequency = .weekly ∨ fa.frequency = .biweekly)
      ∧ ¬(fa.dayOfMonth.isSome ∧ fa.dayOfWeek.isSome) := by
  unfold analyzeFrequency at h
  split at h
  · exact absurd h (by simp)
  · split at h
    · exact absurd h (by simp)
    · rename_i freq dom dow conf0 hclass
      split at h
      · exact absurd h (by simp)
      · simp only [Option.some.injEq] at h
        have hphase := classifyInterval_phase _ _ _ _ _ _ _ hclass
        rw [← h]
        exact hphase

/-- C9 (amended): patterns created by the detector or alongside a recurring
    manual transaction have at most one of {dayOfMonth, dayOfWeek} populated,
    and a populated field matches the frequency class (dayOfMonth only for
    monthly/quarterly/yearly, dayOfWeek only for weekly/biweekly); daily
    patterns populate neither, and a Sunday phase (dayOfWeek = 0) is coerced
    to null by the detector's `|| null`. -/
theorem pattern_phase_field_invariant :
    (∀ (sqrtFn : ℚ → ℚ) (u a : Nat) (txns : List HistTxn) (minConf : ℚ)
        (p : PatternRow), p ∈ detectPatterns sqrtFn u a txns minConf →
      (p.dayOfMonth.isSome →
          p.frequency = .monthly ∨ p.frequency = .quarterly ∨ p.frequency = .yearly)
        ∧ (p.dayOfWeek.isSome → p.frequency = .weekly ∨ p.frequency = .biweekly)
        ∧ ¬(p.dayOfMonth.isSome ∧ p.dayOfWeek.isSome))
      ∧ (∀ (u a : Nat) (nm : String) (amt : ℚ) (tt : TransactionType)
          (fr : Frequency) (dom dow : Option Nat) (d : JSDate) (pe : Option JSDate),
        let p := createManualRecurringPattern u a nm amt tt fr dom dow d pe
        (p.dayOfMonth.isSome → fr = .monthly ∨ fr = .quarterly ∨ fr = .yearly)
          ∧ (p.dayOfWeek.isSome → fr = .weekly ∨ fr = .biweekly)
          ∧ ¬(p.dayOfMonth.isSome ∧ p.dayOfWeek.isSome)) := by
  constructor
  · intro sqrtFn u a txns minConf p hp
    obtain ⟨g, fa, hfa, hgate, hconf, hfreq, hdom, hdow, hamt⟩ :=
      detectPatterns_fields sqrtFn u a txns minConf p hp
    obtain ⟨h1, h2, h3⟩ := analyzeFrequency_phase sqrtFn _ fa hfa
    rw [hfreq, hdom, hdow]
    refine ⟨fun hs => h1 (jsOrNull_isSome _ hs), fun hs => h2 (jsOrNull_isSome _ hs),
      fun hs => h3 ⟨jsOrNull_isSome _ hs.1, jsOrNull_isSome _ hs.2⟩⟩
  · intro u a nm amt tt fr dom dow d pe
    cases fr <;>
      simp [createManualRecurringPattern]

def dailyHistory : List HistTxn :=
  [⟨"Coffee", "", -5, ⟨1, 0, 1⟩⟩,
   ⟨"Coffee", "", -5, ⟨1, 0, 2⟩⟩,
   ⟨"Coffee", "", -5, ⟨1, 0, 3⟩⟩]

/-- C9 (counterexample): a daily pattern produced and persisted by the
    detector (confidence 0.76 ≥ 0.6) has *neither* dayOfMonth nor dayOfWeek
    populated, refuting "exactly one of the two is populated". -/
theorem daily_pattern_phase_fields_counterexample :
    ((detectPatterns sqrtZero 7 8 dailyHistory (3 / 5)).head?).map
        (fun p => (p.frequency, p.dayOfMonth, p.dayOfWeek))
      = some (.daily, none, none) := by
  decide

/-- C9 (witness): the amended invariant applied to the concrete monthly
    detector run and to a concrete manual weekly pattern. -/
theorem pattern_phase_field_invariant_witness :
    (netflixPattern ∈ detectPatterns sqrtZero 7 8 netflixHistory (3 / 10)
        ∧ ((netflixPattern.dayOfMonth.isSome →
              netflixPattern.frequency = .monthly ∨ netflixPattern.frequency = .quarterly
                ∨ netflixPattern.frequency = .yearly)
          ∧ (netflixPattern.dayOfWeek.isSome →
              netflixPattern.frequency = .weekly ∨ netflixPattern.frequency = .biweekly)
          ∧ ¬(netflixPattern.dayOfMonth.isSome ∧ netflixPattern.dayOfWeek.isSome))) :=
  ⟨by decide,
   pattern_phase_field_invariant.1 sqrtZero 7 8 netflixHistory (3 / 10)
     netflixPattern (by decide)⟩

/-! ### Occurrence calculator

`calculateNextOccurrences` (services/recurring-detector.ts, second document):
per-frequency stepping with biweekly phase alignment.  `d.setDate(d.getDate()
+ n)` adds exactly `n` days (MakeDay semantics), so the daily/weekly/biweekly
steps are `addDays`; the month/year branches use the `jsMakeDay` composites. -/

/-- The `switch (pattern.frequency)` step: the candidate next date after `cur`. -/
def nextOccurrenceDate (p : PatternRow) (cur : JSDate) : JSDate :=
  match p.frequency with
  | .daily => addDays cur 1
  | .weekly =>
      match p.dayOfWeek with
      | some k =>
          let daysUntil := (k + 7 - getDay cur) % 7
          addDays cur (if daysUntil = 0 then 7 else daysUntil)
      | none => addDays cur 7
  | .biweekly => addDays cur 14
  | .monthly =>
      let t1 := jsAddMonths cur 1
      match p.dayOfMonth with
      | some k => jsSetDate t1 k
      | none => t1
  | .quarterly =>
      let t1 := jsAddMonths cur 3
      match p.dayOfMonth with
      | some k => jsSetDate t1 k
      | none => t1
  | .yearly =>
      let t1 := jsSetYear cur (cur.year + 1)
      match p.dayOfMonth with
      | some k => jsSetDate t1 k
      | none => t1

/-- The `while (currentDate <= effectiveEndDate)` loop.  `fuel` bounds the
    number of iterations; the caller passes a budget that is never exhausted on
    in-model inputs since every step moves at least one day forward. -/
def occLoop (p : PatternRow) (effEnd : JSDate) : Nat → JSDate → List JSDate
  | 0, _ => []
  | fuel + 1, cur =>
    if dayNumber cur ≤ dayNumber effEnd then
      let nxt := nextOccurrenceDate p cur
      if dayNumber nxt ≤ dayNumber effEnd then nxt :: occLoop p effEnd fuel nxt
      else []
    else []

/-- The `while (currentDate < startDate) currentDate += 14 days` alignment loop. -/
def alignLoop (windowStart : JSDate) : Nat → JSDate → JSDate
  | 0, cur => cur
  | fuel + 1, cur =>
      if dayNumber cur < dayNumber windowStart then
        alignLoop windowStart fuel (addDays cur 14)
      else cur

/-- The first occurrence of weekday `k` on or after the pattern's startDate
    (`daysUntil > 0 ? startDate + daysUntil : startDate`). -/
def biweeklyFirst (p : PatternRow) (k : Nat) : JSDate :=
  if 0 < (k + 7 - getDay p.startDate) % 7
  then addDays p.startDate ((k + 7 - getDay p.startDate) % 7)
  else p.startDate

/-- The biweekly starting point: phase-align to the pattern's startDate when a
    dayOfWeek is set, else the later of pattern start and window start. -/
def biweeklyStart (p : PatternRow) (windowStart : JSDate) : JSDate :=
  match p.dayOfWeek with
  | some k => alignLoop windowStart (dayNumber windowStart + 1) (biweeklyFirst p k)
  | none =>
      if dayNumber windowStart < dayNumber p.startDate then p.startDate
      else windowStart

/-- `pattern.endDate && pattern.endDate < endDate ? pattern.endDate : endDate`. -/
def effectiveEndDate (p : PatternRow) (endDate : JSDate) : JSDate :=
  match p.endDate with
  | some pe => if dayNumber pe < dayNumber endDate then pe else endDate
  | none => endDate

/-- Calculate next occurrence dates for a recurring pattern. -/
def calculateNextOccurrences (p : PatternRow) (startDate endDate : JSDate) :
    List JSDate :=
  let effEnd := effectiveEndDate p endDate
  let start :=
    if p.frequency = .biweekly then biweeklyStart p startDate else startDate
  occLoop p effEnd (dayNumber effEnd + 2) start

theorem dayNumber_jsAddMonths (cur : JSDate) (k : Nat) :
    dayNumber (jsAddMonths cur k) =
      dayNumber (monthStart (12 * cur.year + cur.month + k)) + (cur.day - 1) := by
  unfold jsAddMonths
  rw [dayNumber_jsMakeDay]
  have hidx : 12 * cur.year + (cur.month + k) = 12 * cur.year + cur.month + k := by omega
  rw [hidx]

theorem validDate_jsAddMonths (cur : JSDate) (k : Nat) :
    ValidDate (jsAddMonths cur k) := validDate_jsMakeDay _ _ _

theorem day_jsAddMonths_le (cur : JSDate) (k : Nat) :
    (jsAddMonths cur k).day ≤ 1 + (cur.day - 1) := day_jsMakeDay_le _ _ _

theorem dayNumber_jsSetDate (t : JSDate) (k : Nat) (h : ValidDate t) :
    dayNumber (jsSetDate t k) = dayNumber t - (t.day - 1) + (k - 1) := by
  unfold jsSetDate
  rw [dayNumber_jsMakeDay]
  have hd := dayNumber_decomp t h
  omega

theorem dim_of_monthIdx (cur : JSDate) (h : ValidDate cur) :
    daysInMonth ((12 * cur.year + cur.month) / 12) ((12 * cur.year + cur.month) % 12)
      = daysInMonth cur.year cur.month := by
  obtain ⟨hm, -, -⟩ := h
  have h1 : (12 * cur.year + cur.month) / 12 = cur.year := by omega
  have h2 : (12 * cur.year + cur.month) % 12 = cur.month := by omega
  rw [h1, h2]

/-- Under the data-model constraint `dayOfMonth ≥ 1`, every step of the
    occurrence loop moves strictly forward in time. -/
theorem nextOccurrenceDate_gt (p : PatternRow) (cur : JSDate) (h : ValidDate cur)
    (hdom : ∀ k ∈ p.dayOfMonth, 1 ≤ k) :
    dayNumber cur < dayNumber (nextOccurrenceDate p cur) := by
  obtain ⟨hm, hd1, hd2⟩ := h
  have hdecomp := dayNumber_decomp cur ⟨hm, hd1, hd2⟩
  cases hf : p.frequency with
  | daily =>
      simp only [nextOccurrenceDate, hf, dayNumber_addDays cur ⟨hm, hd1, hd2⟩]
      omega
  | weekly =>
      simp only [nextOccurrenceDate, hf]
      cases p.dayOfWeek with
      | none =>
          simp only [dayNumber_addDays cur ⟨hm, hd1, hd2⟩]
          omega
      | some k =>
          simp only [dayNumber_addDays cur ⟨hm, hd1, hd2⟩]
          split_ifs <;> omega
  | biweekly =>
      simp only [nextOccurrenceDate, hf, dayNumber_addDays cur ⟨hm, hd1, hd2⟩]
      omega
  | monthly =>
      have ht1 := dayNumber_jsAddMonths cur 1
      have hms : 12 * cur.year + cur.month + 1 = (12 * cur.year + cur.month) + 1 := rfl
      have hsucc := dayNumber_monthStart_succ (12 * cur.year + cur.month)
      rw [dim_of_monthIdx cur ⟨hm, hd1, hd2⟩] at hsucc
      have hdim1 : cur.day ≤ daysInMonth cur.year cur.month := hd2
      have ht1v := validDate_jsAddMonths cur 1
      have ht1day := day_jsAddMonths_le cur 1
      cases hdm : p.dayOfMonth with
      | none =>
          simp only [nextOccurrenceDate, hf, hdm]
          omega
      | some k =>
          have hk := hdom k (by rw [hdm]; rfl)
          have hset := dayNumber_jsSetDate (jsAddMonths cur 1) k ht1v
          have ht1d1 : 1 ≤ (jsAddMonths cur 1).day := ht1v.2.1
          simp only [nextOccurrenceDate, hf, hdm]
          omega
  | quarterly =>
      have ht1 := dayNumber_jsAddMonths cur 3
      have hge := dayNumber_monthStart_add_ge (12 * cur.year + cur.month) 3
      have ht1v := validDate_jsAddMonths cur 3
      have ht1dim := daysInMonth_le (jsAddMonths cur 3).year (jsAddMonths cur 3).month
      have ht1d2 := ht1v.2.2
      have ht1d1 : 1 ≤ (jsAddMonths cur 3).day := ht1v.2.1
      cases hdm : p.dayOfMonth with
      | none =>
          simp only [nextOccurrenceDate, hf, hdm]
          omega
      | some k =>
          have hk := hdom k (by rw [hdm]; rfl)
          have hset := dayNumber_jsSetDate (jsAddMonths cur 3) k ht1v
          simp only [nextOccurrenceDate, hf, hdm]
          omega
  | yearly =>
      have ht1 : dayNumber (jsSetYear cur (cur.year + 1)) =
          dayNumber (monthStart (12 * (cur.year + 1) + cur.month)) + (cur.day - 1) := by
        unfold jsSetYear
        rw [dayNumber_jsMakeDay]
      have hidx : 12 * (cur.year + 1) + cur.month = (12 * cur.year + cur.month) + 12 := by
        omega
      rw [hidx] at ht1
      have hge := dayNumber_monthStart_add_ge (12 * cur.year + cur.month) 12
      have ht1v : ValidDate (jsSetYear cur (cur.year + 1)) := validDate_jsMakeDay _ _ _
      have ht1dim := daysInMonth_le (jsSetYear cur (cur.year + 1)).year
        (jsSetYear cur (cur.year + 1)).month
      have ht1d2 := ht1v.2.2
      have ht1d1 : 1 ≤ (jsSetYear cur (cur.year + 1)).day := ht1v.2.1
      cases hdm : p.dayOfMonth with
      | none =>
          simp only [nextOccurrenceDate, hf, hdm]
          omega
      | some k =>
          have hk := hdom k (by rw [hdm]; rfl)
          have hset := dayNumber_jsSetDate (jsSetYear cur (cur.year + 1)) k ht1v
          simp only [nextOccurrenceDate, hf, hdm]
          omega

theorem nextOccurrenceDate_valid (p : PatternRow) (cur : JSDate)
    (h : ValidDate cur) : ValidDate (nextOccurrenceDate p cur) := by
  unfold nextOccurrenceDate
  cases p.frequency <;>
    first
    | exact validDate_addDays cur h _
    | · cases p.dayOfWeek
        · exact validDate_addDays cur h _
        · exact validDate_addDays cur h _
    | · cases p.dayOfMonth
        · exact validDate_jsMakeDay _ _ _
        · exact validDate_jsMakeDay _ _ _

theorem occLoop_mem (p : PatternRow) (effEnd : JSDate) (fuel : Nat) (cur : JSDate)
    (h : ValidDate cur) (hdom : ∀ k ∈ p.dayOfMonth, 1 ≤ k) :
    ∀ d ∈ occLoop p effEnd fuel cur,
      dayNumber cur < dayNumber d ∧ dayNumber d ≤ dayNumber effEnd := by
  induction fuel generalizing cur with
  | zero => simp [occLoop]
  | succ fuel ih =>
      intro d hd
      simp only [occLoop] at hd
      split at hd
      · split at hd
        · rename_i hnxt
          rcases List.mem_cons.mp hd with hdd | hdd
          · subst hdd
            exact ⟨nextOccurrenceDate_gt p cur h hdom, hnxt⟩
          · have := ih (nextOccurrenceDate p cur)
              (nextOccurrenceDate_valid p cur h) d hdd
            have hgt := nextOccurrenceDate_gt p cur h hdom
            exact ⟨by omega, this.2⟩
        · simp at hd
      · simp at hd

theorem occLoop_valid_mem (p : PatternRow) (effEnd : JSDate) (fuel : Nat)
    (cur : JSDate) (h : ValidDate cur) :
    ∀ d ∈ occLoop p effEnd fuel cur, ValidDate d := by
  induction fuel generalizing cur with
  | zero => simp [occLoop]
  | succ fuel ih =>
      intro d hd
      simp only [occLoop] at hd
      split at hd
      · split at hd
        · rcases List.mem_cons.mp hd with hdd | hdd
          · subst hdd
            exact nextOccurrenceDate_valid p cur h
          · exact ih (nextOccurrenceDate p cur) (nextOccurrenceDate_valid p cur h) d hdd
        · simp at hd
      · simp at hd

theorem occLoop_head (p : PatternRow) (effEnd : JSDate) (fuel : Nat) (cur : JSDate)
    (d : JSDate) (h : (occLoop p effEnd fuel cur).head? = some d) :
    d = nextOccurrenceDate p cur := by
  cases fuel with
  | zero => simp [occLoop] at h
  | succ fuel =>
      simp only [occLoop] at h
      split at h
      · split at h
        · simp only [List.head?_cons, Option.some.injEq] at h
          exact h.symm
        · simp at h
      · simp at h

theorem occLoop_chain (p : PatternRow) (effEnd : JSDate) (fuel : Nat) (cur : JSDate)
    (h : ValidDate cur) (hdom : ∀ k ∈ p.dayOfMonth, 1 ≤ k) :
    List.Chain' (fun a b => dayNumber a < dayNumber b) (occLoop p effEnd fuel cur) := by
  induction fuel generalizing cur with
  | zero => simp [occLoop]
  | succ fuel ih =>
      simp only [occLoop]
      split
      · split
        · refine List.chain'_cons'.mpr ⟨?_, ih (nextOccurrenceDate p cur)
            (nextOccurrenceDate_valid p cur h)⟩
          intro b hb
          have hbn := occLoop_head p effEnd fuel (nextOccurrenceDate p cur) b hb
          subst hbn
          exact nextOccurrenceDate_gt p (nextOccurrenceDate p cur)
            (nextOccurrenceDate_valid p cur h) hdom
        · simp
      · simp

theorem alignLoop_valid (ws : JSDate) (fuel : Nat) (cur : JSDate)
    (h : ValidDate cur) : ValidDate (alignLoop ws fuel cur) := by
  induction fuel generalizing cur with
  | zero => exact h
  | succ fuel ih =>
      simp only [alignLoop]
      split
      · exact ih (addDays cur 14) (validDate_addDays cur h 14)
      · exact h

theorem alignLoop_shape (ws : JSDate) (fuel : Nat) (cur : JSDate) :
    ∃ j, alignLoop ws fuel cur = addDays cur (14 * j) := by
  induction fuel generalizing cur with
  | zero => exact ⟨0, rfl⟩
  | succ fuel ih =>
      simp only [alignLoop]
      split
      · obtain ⟨j, hj⟩ := ih (addDays cur 14)
        refine ⟨j + 1, ?_⟩
        rw [hj, addDays_addDays]
        have : 14 + 14 * j = 14 * (j + 1) := by omega
        rw [this]
      · exact ⟨0, rfl⟩

theorem alignLoop_ge (ws : JSDate) (fuel : Nat) (cur : JSDate) (h : ValidDate cur)
    (hfuel : dayNumber ws ≤ dayNumber cur + 14 * fuel) :
    dayNumber ws ≤ dayNumber (alignLoop ws fuel cur) := by
  induction fuel generalizing cur with
  | zero => simpa [alignLoop] using hfuel
  | succ fuel ih =>
      simp only [alignLoop]
      split
      · refine ih (addDays cur 14) (validDate_addDays cur h 14) ?_
        rw [dayNumber_addDays cur h 14]
        omega
      · omega

theorem biweeklyFirst_valid (p : PatternRow) (k : Nat) (hps : ValidDate p.startDate) :
    ValidDate (biweeklyFirst p k) := by
  unfold biweeklyFirst
  split
  · exact validDate_addDays _ hps _
  · exact hps

theorem biweeklyFirst_ge_start (p : PatternRow) (k : Nat) (hps : ValidDate p.startDate) :
    dayNumber p.startDate ≤ dayNumber (biweeklyFirst p k) := by
  unfold biweeklyFirst
  split
  · rw [dayNumber_addDays _ hps]
    omega
  · omega

theorem biweeklyFirst_getDay (p : PatternRow) (k : Nat) (hk6 : k ≤ 6)
    (hps : ValidDate p.startDate) : getDay (biweeklyFirst p k) = k := by
  have hg := getDay_lt p.startDate
  unfold biweeklyFirst
  split
  · rw [getDay_addDays _ hps]
    omega
  · omega

theorem biweeklyStart_none (p : PatternRow) (ws : JSDate) (h : p.dayOfWeek = none) :
    biweeklyStart p ws =
      if dayNumber ws < dayNumber p.startDate then p.startDate else ws := by
  unfold biweeklyStart
  rw [h]

theorem biweeklyStart_some (p : PatternRow) (ws : JSDate) (k : Nat)
    (h : p.dayOfWeek = some k) :
    biweeklyStart p ws = alignLoop ws (dayNumber ws + 1) (biweeklyFirst p k) := by
  unfold biweeklyStart
  rw [h]

theorem biweeklyStart_valid (p : PatternRow) (ws : JSDate) (hws : ValidDate ws)
    (hps : ValidDate p.startDate) : ValidDate (biweeklyStart p ws) := by
  cases hk : p.dayOfWeek with
  | none =>
      rw [biweeklyStart_none p ws hk]
      split
      · exact hps
      · exact hws
  | some k =>
      rw [biweeklyStart_some p ws k hk]
      exact alignLoop_valid _ _ _ (biweeklyFirst_valid p k hps)

theorem biweeklyStart_ge_ws (p : PatternRow) (ws : JSDate) (_hws : ValidDate ws)
    (hps : ValidDate p.startDate) :
    dayNumber ws ≤ dayNumber (biweeklyStart p ws) := by
  cases hk : p.dayOfWeek with
  | none =>
      rw [biweeklyStart_none p ws hk]
      split <;> omega
  | some k =>
      rw [biweeklyStart_some p ws k hk]
      apply alignLoop_ge _ _ _ (biweeklyFirst_valid p k hps)
      omega

theorem biweeklyStart_ge_start (p : PatternRow) (ws : JSDate)
    (hps : ValidDate p.startDate) :
    dayNumber p.startDate ≤ dayNumber (biweeklyStart p ws) := by
  cases hk : p.dayOfWeek with
  | none =>
      rw [biweeklyStart_none p ws hk]
      split <;> omega
  | some k =>
      rw [biweeklyStart_some p ws k hk]
      obtain ⟨j, hj⟩ := alignLoop_shape ws (dayNumber ws + 1) (biweeklyFirst p k)
      rw [hj, dayNumber_addDays _ (biweeklyFirst_valid p k hps)]
      have := biweeklyFirst_ge_start p k hps
      omega

theorem biweeklyStart_getDay (p : PatternRow) (ws : JSDate) (k : Nat)
    (hk : p.dayOfWeek = some k) (hk6 : k ≤ 6) (hps : ValidDate p.startDate) :
    getDay (biweeklyStart p ws) = k := by
  rw [biweeklyStart_some p ws k hk]
  obtain ⟨j, hj⟩ := alignLoop_shape ws (dayNumber ws + 1) (biweeklyFirst p k)
  rw [hj, getDay_addDays _ (biweeklyFirst_valid p k hps)]
  rw [biweeklyFirst_getDay p k hk6 hps]
  omega

theorem effectiveEndDate_le (p : PatternRow) (we : JSDate) :
    dayNumber (effectiveEndDate p we) ≤ dayNumber we
      ∧ ∀ pe ∈ p.endDate, dayNumber (effectiveEndDate p we) ≤ dayNumber pe := by
  unfold effectiveEndDate
  cases hpe : p.endDate with
  | none => exact ⟨le_refl _, by simp⟩
  | some pe =>
      dsimp only
      by_cases h : dayNumber pe < dayNumber we
      · rw [if_pos h]
        exact ⟨by omega, fun pe2 hpe2 => by
          have he : pe = pe2 := by simpa using hpe2
          subst he; omega⟩
      · rw [if_neg h]
        exact ⟨le_refl _, fun pe2 hpe2 => by
          have he : pe = pe2 := by simpa using hpe2
          subst he; omega⟩

theorem calculateNextOccurrences_def (p : PatternRow) (ws we : JSDate) :
    calculateNextOccurrences p ws we =
      occLoop p (effectiveEndDate p we) (dayNumber (effectiveEndDate p we) + 2)
        (if p.frequency = .biweekly then biweeklyStart p ws else ws) := rfl

/-- C6: every emitted occurrence lies between the window start and the minimum
    of the window end and the pattern's end date, and the emitted list is
    sorted in strictly ascending date order. -/
theorem calculateNextOccurrences_bounded_sorted (p : PatternRow) (ws we : JSDate)
    (hws : ValidDate ws) (hps : ValidDate p.startDate)
    (hdom : ∀ k ∈ p.dayOfMonth, 1 ≤ k) :
    (∀ d ∈ calculateNextOccurrences p ws we,
        dayNumber ws ≤ dayNumber d ∧ dayNumber d ≤ dayNumber we
          ∧ ∀ pe ∈ p.endDate, dayNumber d ≤ dayNumber pe)
      ∧ List.Chain' (fun a b => dayNumber a < dayNumber b)
          (calculateNextOccurrences p ws we) := by
  have hstartv : ValidDate (if p.frequency = .biweekly then biweeklyStart p ws else ws) := by
    split
    · exact biweeklyStart_valid p ws hws hps
    · exact hws
  have hstartge : dayNumber ws ≤
      dayNumber (if p.frequency = .biweekly then biweeklyStart p ws else ws) := by
    split
    · exact biweeklyStart_ge_ws p ws hws hps
    · exact le_refl _
  have heff := effectiveEndDate_le p we
  rw [calculateNextOccurrences_def]
  constructor
  · intro d hd
    have hmem := occLoop_mem p (effectiveEndDate p we) _ _ hstartv hdom d hd
    refine ⟨by omega, by omega, fun pe hpe => ?_⟩
    have := heff.2 pe hpe
    omega
  · exact occLoop_chain p (effectiveEndDate p we) _ _ hstartv hdom

def rentPattern : PatternRow :=
  { id := 5, userId := 1, accountId := 1, name := "Rent", merchantName := "rent",
    amount := 200, amountVariance := 20, frequency := .monthly,
    dayOfMonth := some 10, dayOfWeek := none, startDate := ⟨1, 10, 10⟩,
    endDate := none, transactionType := .expense, confidence := 9 / 10 }

/-- C6 (witness): the bounds and sortedness at a concrete monthly pattern and
    window, where the calculator emits one occurrence. -/
theorem calculateNextOccurrences_bounded_sorted_witness :
    (ValidDate (⟨2, 0, 1⟩ : JSDate) ∧ ValidDate rentPattern.startDate
        ∧ (∀ k ∈ rentPattern.dayOfMonth, 1 ≤ k))
      ∧ ((∀ d ∈ calculateNextOccurrences rentPattern ⟨2, 0, 1⟩ ⟨2, 1, 15⟩,
            dayNumber (⟨2, 0, 1⟩ : JSDate) ≤ dayNumber d
              ∧ dayNumber d ≤ dayNumber (⟨2, 1, 15⟩ : JSDate)
              ∧ ∀ pe ∈ rentPattern.endDate, dayNumber d ≤ dayNumber pe)
          ∧ List.Chain' (fun a b => dayNumber a < dayNumber b)
              (calculateNextOccurrences rentPattern ⟨2, 0, 1⟩ ⟨2, 1, 15⟩)) :=
  ⟨⟨by decide, by decide, by decide⟩,
   calculateNextOccurrences_bounded_sorted rentPattern ⟨2, 0, 1⟩ ⟨2, 1, 15⟩
     (by decide) (by decide) (by decide)⟩

theorem nextOccurrenceDate_biweekly (p : PatternRow) (cur : JSDate)
    (hf : p.frequency = .biweekly) : nextOccurrenceDate p cur = addDays cur 14 := by
  simp [nextOccurrenceDate, hf]

theorem occLoop_chain14 (p : PatternRow) (effEnd : JSDate) (fuel : Nat)
    (cur : JSDate) (hf : p.frequency = .biweekly) :
    List.Chain' (fun a b => b = addDays a 14) (occLoop p effEnd fuel cur) := by
  induction fuel generalizing cur with
  | zero => simp [occLoop]
  | succ fuel ih =>
      simp only [occLoop]
      split
      · split
        · refine List.chain'_cons'.mpr ⟨?_, ih (nextOccurrenceDate p cur)⟩
          intro b hb
          have hbn := occLoop_head p effEnd fuel (nextOccurrenceDate p cur) b hb
          rw [hbn, nextOccurrenceDate_biweekly p _ hf]
        · simp
      · simp

theorem occLoop_getDay_biweekly (p : PatternRow) (effEnd : JSDate) (fuel : Nat)
    (cur : JSDate) (hf : p.frequency = .biweekly) (hcur : ValidDate cur)
    (k : Nat) (hk6 : k ≤ 6) (hgd : getDay cur = k) :
    ∀ d ∈ occLoop p effEnd fuel cur, getDay d = k := by
  induction fuel generalizing cur with
  | zero => simp [occLoop]
  | succ fuel ih =>
      intro d hd
      simp only [occLoop] at hd
      split at hd
      · split at hd
        · have hnxtday : getDay (nextOccurrenceDate p cur) = k := by
            rw [nextOccurrenceDate_biweekly p cur hf, getDay_addDays cur hcur 14]
            omega
          rcases List.mem_cons.mp hd with hdd | hdd
          · rw [hdd]; exact hnxtday
          · exact ih (nextOccurrenceDate p cur)
              (nextOccurrenceDate_valid p cur hcur) hnxtday d hdd
        · simp at hd
      · simp at hd

/-- C5: for a biweekly pattern with a target weekday, every emitted occurrence
    falls on that weekday and consecutive occurrences are exactly 14 days
    apart — but the aligned starting day itself is never emitted: the first
    emitted occurrence (when any exists) is the aligned start PLUS 14 days,
    even though the aligned start already has the right weekday, lies on or
    after the pattern's startDate, and lies on or after the window start. -/
theorem biweekly_alignment_skips_first (p : PatternRow) (ws we : JSDate)
    (hf : p.frequency = .biweekly) (k : Nat) (hk : p.dayOfWeek = some k)
    (hk6 : k ≤ 6) (hws : ValidDate ws) (hps : ValidDate p.startDate) :
    (∀ d ∈ calculateNextOccurrences p ws we, getDay d = k)
      ∧ List.Chain' (fun a b => b = addDays a 14) (calculateNextOccurrences p ws we)
      ∧ (∀ d0 ∈ (calculateNextOccurrences p ws we).head?,
            d0 = addDays (biweeklyStart p ws) 14)
      ∧ getDay (biweeklyStart p ws) = k
      ∧ dayNumber p.startDate ≤ dayNumber (biweeklyStart p ws)
      ∧ dayNumber ws ≤ dayNumber (biweeklyStart p ws) := by
  have hsv : ValidDate (biweeklyStart p ws) := biweeklyStart_valid p ws hws hps
  have hsd : getDay (biweeklyStart p ws) = k := biweeklyStart_getDay p ws k hk hk6 hps
  have hcalc : calculateNextOccurrences p ws we =
      occLoop p (effectiveEndDate p we) (dayNumber (effectiveEndDate p we) + 2)
        (biweeklyStart p ws) := by
    rw [calculateNextOccurrences_def, if_pos hf]
  refine ⟨?_, ?_, ?_, hsd, biweeklyStart_ge_start p ws hps,
    biweeklyStart_ge_ws p ws hws hps⟩
  · rw [hcalc]
    exact occLoop_getDay_biweekly p _ _ _ hf hsv k hk6 hsd
  · rw [hcalc]
    exact occLoop_chain14 p _ _ _ hf
  · intro d0 hd0
    rw [hcalc] at hd0
    simp only [Option.mem_def] at hd0
    have := occLoop_head p _ _ _ d0 hd0
    rw [this, nextOccurrenceDate_biweekly p _ hf]

def biweeklyMondayPattern : PatternRow :=
  { id := 2, userId := 1, accountId := 1, name := "Paycheck",
    merchantName := "paycheck", amount := 1500, amountVariance := 150,
    frequency := .biweekly, dayOfMonth := none, dayOfWeek := some 1,
    startDate := ⟨1, 0, 3⟩, endDate := none, transactionType := .income,
    confidence := 9 / 10 }

/-- C5 (counterexample): for a biweekly Monday pattern whose startDate is
    Wednesday Jan 3 of year 1, with window Jan 1 – Feb 28, the first emitted
    occurrence is Jan 22 — not Jan 8, which is the earliest Monday on or after
    both the pattern's startDate and the window start. -/
theorem biweekly_first_occurrence_counterexample :
    (calculateNextOccurrences biweeklyMondayPattern ⟨1, 0, 1⟩ ⟨1, 1, 28⟩).head?
        = some ⟨1, 0, 22⟩
      ∧ (⟨1, 0, 22⟩ : JSDate) ≠ ⟨1, 0, 8⟩
      ∧ getDay ⟨1, 0, 8⟩ = 1
      ∧ dayNumber biweeklyMondayPattern.startDate ≤ dayNumber ⟨1, 0, 8⟩
      ∧ dayNumber (⟨1, 0, 1⟩ : JSDate) ≤ dayNumber ⟨1, 0, 8⟩
      ∧ ∀ d : JSDate, getDay d = 1 →
          dayNumber biweeklyMondayPattern.startDate ≤ dayNumber d →
          dayNumber (⟨1, 0, 8⟩ : JSDate) ≤ dayNumber d := by
  refine ⟨by decide, by decide, by decide, by decide, by decide, ?_⟩
  intro d hgd hge
  have h1 : (dayNumber d + 6) % 7 = 1 := hgd
  have h2 : dayNumber biweeklyMondayPattern.startDate = 368 := by decide
  have h3 : dayNumber (⟨1, 0, 8⟩ : JSDate) = 373 := by decide
  omega

/-- C5 (witness): the amended alignment theorem applied to the concrete
    biweekly Monday pattern. -/
theorem biweekly_alignment_skips_first_witness :
    (biweeklyMondayPattern.frequency = .biweekly
        ∧ biweeklyMondayPattern.dayOfWeek = some 1 ∧ 1 ≤ 6
        ∧ ValidDate (⟨1, 0, 1⟩ : JSDate) ∧ ValidDate biweeklyMondayPattern.startDate)
      ∧ ((∀ d ∈ calculateNextOccurrences biweeklyMondayPattern ⟨1, 0, 1⟩ ⟨1, 1, 28⟩,
            getDay d = 1)
          ∧ List.Chain' (fun a b => b = addDays a 14)
              (calculateNextOccurrences biweeklyMondayPattern ⟨1, 0, 1⟩ ⟨1, 1, 28⟩)
          ∧ (∀ d0 ∈ (calculateNextOccurrences biweeklyMondayPattern
                ⟨1, 0, 1⟩ ⟨1, 1, 28⟩).head?,
                d0 = addDays (biweeklyStart biweeklyMondayPattern ⟨1, 0, 1⟩) 14)
          ∧ getDay (biweeklyStart biweeklyMondayPattern ⟨1, 0, 1⟩) = 1
          ∧ dayNumber biweeklyMondayPattern.startDate
              ≤ dayNumber (biweeklyStart biweeklyMondayPattern ⟨1, 0, 1⟩)
          ∧ dayNumber (⟨1, 0, 1⟩ : JSDate)
              ≤ dayNumber (biweeklyStart biweeklyMondayPattern ⟨1, 0, 1⟩)) :=
  ⟨⟨by decide, by decide, by decide, by decide, by decide⟩,
   biweekly_alignment_skips_first biweeklyMondayPattern ⟨1, 0, 1⟩ ⟨1, 1, 28⟩
     (by decide) 1 (by decide) (by decide) (by decide) (by decide)⟩

theorem occLoop_ge_biweekly (p : PatternRow) (effEnd : JSDate) (fuel : Nat)
    (cur : JSDate) (hf : p.frequency = .biweekly) (hcur : ValidDate cur) :
    ∀ d ∈ occLoop p effEnd fuel cur, dayNumber cur < dayNumber d := by
  induction fuel generalizing cur with
  | zero => simp [occLoop]
  | succ fuel ih =>
      intro d hd
      simp only [occLoop] at hd
      have hstep : dayNumber (nextOccurrenceDate p cur) = dayNumber cur + 14 := by
        rw [nextOccurrenceDate_biweekly p cur hf, dayNumber_addDays cur hcur 14]
      split at hd
      · split at hd
        · rcases List.mem_cons.mp hd with hdd | hdd
          · rw [hdd]; omega
          · have := ih (nextOccurrenceDate p cur)
              (nextOccurrenceDate_valid p cur hcur) d hdd
            omega
        · simp at hd
      · simp at hd

/-- C7: for a biweekly pattern the claim holds — every emitted occurrence is
    strictly after the phase-aligned start, which is on or after the pattern's
    startDate; hence no biweekly occurrence predates the pattern's startDate. -/
theorem biweekly_respects_pattern_start (p : PatternRow) (ws we : JSDate)
    (hf : p.frequency = .biweekly) (hws : ValidDate ws)
    (hps : ValidDate p.startDate) :
    ∀ d ∈ calculateNextOccurrences p ws we,
      dayNumber p.startDate ≤ dayNumber d := by
  intro d hd
  rw [calculateNextOccurrences_def, if_pos hf] at hd
  have h1 := occLoop_ge_biweekly p (effectiveEndDate p we) _
    (biweeklyStart p ws) hf (biweeklyStart_valid p ws hws hps) d hd
  have h2 := biweeklyStart_ge_start p ws hps
  omega

def juneMonthlyPattern : PatternRow :=
  { id := 3, userId := 1, accountId := 1, name := "Gym",
    merchantName := "gym", amount := 40, amountVariance := 4,
    frequency := .monthly, dayOfMonth := some 1, dayOfWeek := none,
    startDate := ⟨2, 5, 1⟩, endDate := none, transactionType := .expense,
    confidence := 8 / 10 }

/-- C7 (counterexample): a monthly pattern whose startDate is June 1 of year 2,
    forecast over the window Jan 1 – Mar 1 of year 2, emits Feb 1 of year 2 —
    an occurrence strictly before the pattern's startDate.  Only the biweekly
    branch consults pattern.startDate; the other frequencies step from the
    window start. -/
theorem occurrence_before_pattern_start_counterexample :
    (⟨2, 1, 1⟩ : JSDate) ∈ calculateNextOccurrences juneMonthlyPattern ⟨2, 0, 1⟩ ⟨2, 2, 1⟩
      ∧ dayNumber (⟨2, 1, 1⟩ : JSDate) < dayNumber juneMonthlyPattern.startDate := by
  decide

/-- C7 (witness): the biweekly half of the corrected claim at the concrete
    Monday paycheck pattern. -/
theorem biweekly_respects_pattern_start_witness :
    (biweeklyMondayPattern.frequency = .biweekly
        ∧ ValidDate (⟨1, 0, 1⟩ : JSDate) ∧ ValidDate biweeklyMondayPattern.startDate)
      ∧ ∀ d ∈ calculateNextOccurrences biweeklyMondayPattern ⟨1, 0, 1⟩ ⟨1, 1, 28⟩,
          dayNumber biweeklyMondayPattern.startDate ≤ dayNumber d :=
  ⟨⟨by decide, by decide, by decide⟩,
   biweekly_respects_pattern_start biweeklyMondayPattern ⟨1, 0, 1⟩ ⟨1, 1, 28⟩
     (by decide) (by decide) (by decide)⟩

/-! ### Forecast engine state

The `ForecastEngine` (second document of services/recurring-detector.ts)
operates on three Prisma tables.  Rows are modelled as structures; dates are
UTC-noon days, so ISO `YYYY-MM-DD` string keys coincide with the date triple
and `toISOString().split('T')[0]` comparisons are triple comparisons.  Record
ids are numeric; a forecast id is drawn from a `nextForecastId` counter and
`findFirst` with `orderBy createdAt desc` is the head of the newest-first
stored list. -/

structure FTxnRow where
  userId : Nat
  accountId : Nat
  forecastId : Nat
  recurringPatternId : Option Nat
  isManual : Bool
  amount : ℚ
  date : JSDate
  name : String
deriving DecidableEq, Repr

structure ForecastRec where
  id : Nat
  userId : Nat
  accountId : Nat
  startDate : JSDate
  endDate : JSDate
  initialBalance : ℚ
  projectedBalance : ℚ
deriving DecidableEq, Repr

structure DB where
  patterns : List PatternRow
  forecasts : List ForecastRec
  ftxns : List FTxnRow
  nextForecastId : Nat
deriving DecidableEq, Repr

/-- `dateStr > todayStr` on ISO date strings: strictly after today. -/
def isDateAfterToday (today d : JSDate) : Bool :=
  decide (dayNumber today < dayNumber d)

/-- The sum of the amounts bucketed under one date key. -/
def dayAmountTotal (txns : List FTxnRow) (d : JSDate) : ℚ :=
  ((txns.filter (fun t => t.date == d)).map (fun t => t.amount)).sum

/-- The day-by-day walk: apply the day's bucket, snapshot, step one day. -/
def pbLoop (txns : List FTxnRow) : Nat → JSDate → ℚ → List (JSDate × ℚ)
  | 0, _, _ => []
  | n + 1, cur, bal =>
      (cur, bal + dayAmountTotal txns cur) ::
        pbLoop txns n (addDays cur 1) (bal + dayAmountTotal txns cur)

/-- The rows `projectBalance` fetches and keeps: the forecast's rows for this
    user and account, restricted to strictly-future dates. -/
def relevantFuture (today : JSDate) (txns : List FTxnRow) (fid u a : Nat) :
    List FTxnRow :=
  (txns.filter (fun t =>
      t.forecastId == fid && t.userId == u && t.accountId == a)).filter
    (fun t => isDateAfterToday today t.date)

/-- `ForecastEngine.projectBalance`: one snapshot per day from `ws` to `we`
    inclusive.  (The source's date-ascending fetch order only affects the
    in-day application order, which is irrelevant to the sums.) -/
def projectBalance (today : JSDate) (txns : List FTxnRow) (fid u a : Nat)
    (init : ℚ) (ws we : JSDate) : List (JSDate × ℚ) :=
  pbLoop (relevantFuture today txns fid u a)
    (dayNumber we + 1 - dayNumber ws) ws init

/-- Membership of a date among the first `i+1` window days `cur, …, cur+i`. -/
def dateInFirstDays (cur : JSDate) : Nat → JSDate → Bool
  | 0, d => d == cur
  | i + 1, d => dateInFirstDays cur i d || (d == addDays cur (i + 1))

/-- The total amount of the transactions dated on window days `0..i`. -/
def windowAmount (txns : List FTxnRow) (cur : JSDate) (i : Nat) : ℚ :=
  ((txns.filter (fun t => dateInFirstDays cur i t.date)).map
    (fun t => t.amount)).sum

theorem sum_filter_or_disjoint {α : Type} (l : List α) (f : α → ℚ) (p q : α → Bool)
    (h : ∀ x ∈ l, ¬(p x = true ∧ q x = true)) :
    ((l.filter (fun x => p x || q x)).map f).sum
      = ((l.filter p).map f).sum + ((l.filter q).map f).sum := by
  induction l with
  | nil => simp
  | cons x xs ih =>
      have hx := h x (List.mem_cons_self x xs)
      have hxs : ∀ y ∈ xs, ¬(p y = true ∧ q y = true) :=
        fun y hy => h y (List.mem_cons_of_mem x hy)
      cases hp : p x <;> cases hq : q x
      · simp [List.filter_cons, hp, hq, ih hxs]
      · simp [List.filter_cons, hp, hq, ih hxs]
        ring
      · simp [List.filter_cons, hp, hq, ih hxs]
        ring
      · exact absurd ⟨hp, hq⟩ hx

theorem dateInFirstDays_exists (s : JSDate) (i : Nat) (d : JSDate)
    (h : dateInFirstDays s i d = true) : ∃ j, j ≤ i ∧ d = addDays s j := by
  induction i with
  | zero => exact ⟨0, le_refl 0, eq_of_beq h⟩
  | succ i ih =>
      rcases Bool.or_eq_true_iff.mp h with h1 | h2
      · obtain ⟨j, hj, he⟩ := ih h1
        exact ⟨j, by omega, he⟩
      · exact ⟨i + 1, le_refl _, eq_of_beq h2⟩

theorem dateInFirstDays_shift (cur d : JSDate) (i : Nat) :
    dateInFirstDays cur (i + 1) d
      = ((d == cur) || dateInFirstDays (addDays cur 1) i d) := by
  induction i with
  | zero => rfl
  | succ i ih =>
      show (dateInFirstDays cur (i + 1) d || (d == addDays cur (i + 2)))
        = ((d == cur) ||
            (dateInFirstDays (addDays cur 1) i d || (d == addDays (addDays cur 1) (i + 1))))
      rw [ih, addDays_addDays]
      have h12 : 1 + (i + 1) = i + 2 := by omega
      rw [h12, Bool.or_assoc]

theorem windowAmount_succ (txns : List FTxnRow) (cur : JSDate)
    (hcur : ValidDate cur) (i : Nat) :
    windowAmount txns cur (i + 1)
      = dayAmountTotal txns cur + windowAmount txns (addDays cur 1) i := by
  unfold windowAmount dayAmountTotal
  have hf : (fun t : FTxnRow => dateInFirstDays cur (i + 1) t.date)
      = (fun t : FTxnRow =>
          (t.date == cur) || dateInFirstDays (addDays cur 1) i t.date) :=
    funext fun t => dateInFirstDays_shift cur t.date i
  rw [hf]
  refine sum_filter_or_disjoint txns _ _ _ ?_
  rintro t ht ⟨h1, h2⟩
  have hd : t.date = cur := eq_of_beq h1
  obtain ⟨j, hj, he⟩ := dateInFirstDays_exists _ _ _ h2
  rw [hd, addDays_addDays] at he
  have hn := congrArg dayNumber he
  rw [dayNumber_addDays cur hcur] at hn
  omega

theorem pbLoop_length (txns : List FTxnRow) (n : Nat) :
    ∀ (cur : JSDate) (bal : ℚ), (pbLoop txns n cur bal).length = n := by
  induction n with
  | zero => intro cur bal; rfl
  | succ n ih =>
      intro cur bal
      show (pbLoop txns (n + 1) cur bal).length = n + 1
      simp only [pbLoop, List.length_cons, ih]

theorem pbLoop_get (txns : List FTxnRow) (n : Nat) :
    ∀ (cur : JSDate), ValidDate cur → ∀ (bal : ℚ) (i : Nat), i < n →
      (pbLoop txns n cur bal).get? i
        = some (addDays cur i, bal + windowAmount txns cur i) := by
  induction n with
  | zero => intro cur _ bal i hi; exact absurd hi (Nat.not_lt_zero i)
  | succ n ih =>
      intro cur hc bal i hi
      cases i with
      | zero => rfl
      | succ j =>
          show (pbLoop txns n (addDays cur 1) (bal + dayAmountTotal txns cur)).get? j = _
          rw [ih (addDays cur 1) (validDate_addDays cur hc 1)
            (bal + dayAmountTotal txns cur) j (by omega)]
          have h1 : addDays (addDays cur 1) j = addDays cur (j + 1) := by
            rw [addDays_addDays]; congr 1; omega
          have h2 : bal + dayAmountTotal txns cur + windowAmount txns (addDays cur 1) j
              = bal + windowAmount txns cur (j + 1) := by
            rw [windowAmount_succ txns cur hc j]; ring
          rw [h1, h2]

/-- C1: projectBalance emits exactly one snapshot per calendar day from the
    window start to the window end inclusive, and the i-th snapshot's balance
    is the initial balance plus the amounts of the strictly-future relevant
    transactions dated on the window days up to day i.  (Transactions dated
    before the window start are NOT included — see the counterexample.) -/
theorem projectBalance_snapshots (today : JSDate) (txns : List FTxnRow)
    (fid u a : Nat) (init : ℚ) (ws we : JSDate) (hws : ValidDate ws) :
    (projectBalance today txns fid u a init ws we).length
        = dayNumber we + 1 - dayNumber ws
      ∧ ∀ i, i < dayNumber we + 1 - dayNumber ws →
          (projectBalance today txns fid u a init ws we).get? i
            = some (addDays ws i,
                init + windowAmount (relevantFuture today txns fid u a) ws i) :=
  ⟨pbLoop_length _ _ _ _, fun i hi => pbLoop_get _ _ ws hws init i hi⟩

def earlyTxn : FTxnRow :=
  { userId := 1, accountId := 1, forecastId := 1, recurringPatternId := none,
    isManual := true, amount := -200, date := ⟨3, 0, 1⟩, name := "Early" }

/-- C1 (counterexample): a strictly-future transaction dated strictly before
    the window start is dated on or before the first window day, yet the first
    snapshot's balance is the initial balance alone — the walk never applies
    transactions dated before the window start. -/
theorem projectBalance_pre_window_counterexample :
    (projectBalance ⟨2, 11, 31⟩ [earlyTxn] 1 1 1 1000 ⟨3, 0, 2⟩ ⟨3, 0, 4⟩).head?
        = some (⟨3, 0, 2⟩, 1000)
      ∧ isDateAfterToday ⟨2, 11, 31⟩ earlyTxn.date = true
      ∧ dayNumber earlyTxn.date ≤ dayNumber (⟨3, 0, 2⟩ : JSDate)
      ∧ earlyTxn.forecastId = 1 ∧ earlyTxn.userId = 1 ∧ earlyTxn.accountId = 1
      ∧ (1000 : ℚ) ≠ 1000 + earlyTxn.amount := by
  decide

def midTxn : FTxnRow :=
  { userId := 1, accountId := 1, forecastId := 1, recurringPatternId := none,
    isManual := true, amount := -200, date := ⟨3, 0, 5⟩, name := "One-off" }

/-- C1 (witness): the per-day characterization at the spec's concrete scenario —
    initial balance 1000, one -200 transaction on day 5 of a 10-day window:
    snapshots are 1000 on days 1–4 and 800 from day 5 on. -/
theorem projectBalance_snapshots_witness :
    ValidDate (⟨3, 0, 1⟩ : JSDate)
      ∧ ((projectBalance ⟨2, 11, 31⟩ [midTxn] 1 1 1 1000 ⟨3, 0, 1⟩ ⟨3, 0, 10⟩).length
            = dayNumber (⟨3, 0, 10⟩ : JSDate) + 1 - dayNumber (⟨3, 0, 1⟩ : JSDate)
          ∧ ∀ i, i < dayNumber (⟨3, 0, 10⟩ : JSDate) + 1 - dayNumber (⟨3, 0, 1⟩ : JSDate) →
              (projectBalance ⟨2, 11, 31⟩ [midTxn] 1 1 1 1000 ⟨3, 0, 1⟩ ⟨3, 0, 10⟩).get? i
                = some (addDays ⟨3, 0, 1⟩ i,
                    1000 + windowAmount (relevantFuture ⟨2, 11, 31⟩ [midTxn] 1 1 1) ⟨3, 0, 1⟩ i))
      ∧ projectBalance ⟨2, 11, 31⟩ [midTxn] 1 1 1 1000 ⟨3, 0, 1⟩ ⟨3, 0, 10⟩
          = [(⟨3, 0, 1⟩, 1000), (⟨3, 0, 2⟩, 1000), (⟨3, 0, 3⟩, 1000), (⟨3, 0, 4⟩, 1000),
             (⟨3, 0, 5⟩, 800), (⟨3, 0, 6⟩, 800), (⟨3, 0, 7⟩, 800), (⟨3, 0, 8⟩, 800),
             (⟨3, 0, 9⟩, 800), (⟨3, 0, 10⟩, 800)] :=
  ⟨by decide,
   projectBalance_snapshots ⟨2, 11, 31⟩ [midTxn] 1 1 1 1000 ⟨3, 0, 1⟩ ⟨3, 0, 10⟩ (by decide),
   by decide⟩

/-! ### Forecast generation

`generateForecastTransactions` stages one candidate row per future occurrence,
deduplicating first against a key set built from the forecast's existing
pattern-linked rows (key = `patternId-dateStr-name-round2(amount)`; the stored
`recurringPatternId || 'null'` coercion makes a falsy id render as `null`,
while the staged key uses `pattern.id` directly), then inserts the survivors
one by one, skipping any row for which `findFirst` sees an existing row with
the same pattern id, date and name and an amount within ±0.01 of the staged
rounded amount. -/

/-- The dedup key `patternId-dateStr-name-amount`; `none` in the first
    component is the JS string `'null'`. -/
def TxnKey := Option Nat × JSDate × String × ℚ
deriving instance DecidableEq for TxnKey

/-- Sign the pattern amount from its transactionType. -/
def signedPatternAmount (p : PatternRow) : ℚ :=
  if p.transactionType = .expense then -|p.amount| else |p.amount|

/-- The row staged for one future occurrence of a pattern. -/
def stagedRow (u a fid : Nat) (p : PatternRow) (d : JSDate) : FTxnRow :=
  { userId := u, accountId := a, forecastId := fid,
    recurringPatternId := some p.id, isManual := false,
    amount := signedPatternAmount p, date := d, name := p.name }

/-- The key set built from the forecast's existing pattern-linked rows. -/
def existingKeys (fid : Nat) (ftxns : List FTxnRow) : List TxnKey :=
  (ftxns.filter (fun t => t.forecastId == fid && t.recurringPatternId.isSome)).map
    (fun t => (jsOrNull t.recurringPatternId, t.date, t.name, round2 t.amount))

/-- Stage one occurrence: skip non-future dates and already-seen keys, else
    add the key and the candidate row. -/
def stageOcc (today : JSDate) (u a fid : Nat) (p : PatternRow)
    (st : List TxnKey × List FTxnRow) (d : JSDate) : List TxnKey × List FTxnRow :=
  if isDateAfterToday today d then
    if st.1.contains (some p.id, d, p.name, round2 (signedPatternAmount p)) then st
    else ((some p.id, d, p.name, round2 (signedPatternAmount p)) :: st.1,
          st.2 ++ [stagedRow u a fid p d])
  else st

/-- Stage the candidate rows for every pattern and occurrence. -/
def stageAll (today ws we : JSDate) (u a fid : Nat) (patterns : List PatternRow)
    (ftxns : List FTxnRow) : List FTxnRow :=
  (patterns.foldl (fun st p =>
      (calculateNextOccurrences p ws we).foldl (stageOcc today u a fid p) st)
    (existingKeys fid ftxns, [])).2

/-- The pattern query filter: user, account, and the optional id allowlist
    (ignored when empty, as in the JS truthiness check on `length > 0`). -/
def patternFilter (u a : Nat) (includeIds : Option (List Nat))
    (p : PatternRow) : Bool :=
  p.userId == u && p.accountId == a &&
    (match includeIds with
     | some ids => if ids.isEmpty then true else ids.contains p.id
     | none => true)

/-- The `findFirst` duplicate check of the insert loop: same forecast, pattern
    link, date and name, amount within ±0.01 of the staged rounded amount. -/
def isDuplicateOf (fid : Nat) (txn : FTxnRow) (t : FTxnRow) : Bool :=
  t.forecastId == fid && t.recurringPatternId == txn.recurringPatternId
    && t.date == txn.date && t.name == txn.name
    && decide (round2 txn.amount - 1 / 100 ≤ t.amount)
    && decide (t.amount ≤ round2 txn.amount + 1 / 100)

/-- Insert staged rows one by one, skipping rows `findFirst` flags. -/
def insertLoop (fid : Nat) (ftxns : List FTxnRow) : List FTxnRow → List FTxnRow
  | [] => ftxns
  | txn :: rest =>
      if ftxns.any (isDuplicateOf fid txn)
      then insertLoop fid ftxns rest
      else insertLoop fid (ftxns ++ [txn]) rest

/-- `ForecastEngine.generateForecastTransactions` as a state update. -/
def generateForecastTransactions (today ws we : JSDate) (u a fid : Nat)
    (includeIds : Option (List Nat)) (db : DB) : DB :=
  let staged := stageAll today ws we u a fid
    (db.patterns.filter (patternFilter u a includeIds)) db.ftxns
  { db with ftxns := insertLoop fid db.ftxns staged }

/-- The deleteMany filter: keep a row unless it is a non-manual row of this
    forecast. -/
def keepRow (fid : Nat) (t : FTxnRow) : Bool :=
  !(t.forecastId == fid && t.isManual == false)

def forecastMatches (u a : Nat) (f : ForecastRec) : Bool :=
  f.userId == u && f.accountId == a

/-- `x || dflt` on a possibly-missing number: 0 is falsy. -/
def jsOrElseQ (x : Option ℚ) (dflt : ℚ) : ℚ :=
  match x with
  | some v => if v = 0 then dflt else v
  | none => dflt

/-- `balanceSnapshots[balanceSnapshots.length - 1]?.balance || initialBalance`. -/
def finalBalanceOf (snaps : List (JSDate × ℚ)) (init : ℚ) : ℚ :=
  jsOrElseQ (snaps.getLast?.map (fun s => s.2)) init

def updateWindow (ws we : JSDate) (bal : ℚ) (fid : Nat) (g : ForecastRec) :
    ForecastRec :=
  if g.id == fid then
    { g with
        startDate := ws, endDate := we, initialBalance := bal,
        projectedBalance := bal }
  else g

def updateProj (fid : Nat) (fb : ℚ) (g : ForecastRec) : ForecastRec :=
  if g.id == fid then { g with projectedBalance := fb } else g

/-- The reuse branch of `generateForecast`: update the found forecast's window,
    delete its non-manual rows, regenerate, and record the projected balance. -/
def generateForecastUpdate (today : JSDate) (u a : Nat) (bal : ℚ) (we : JSDate)
    (includeIds : Option (List Nat)) (f : ForecastRec) (db : DB) : DB :=
  let db0 : DB := { db with
    forecasts := db.forecasts.map (updateWindow today we bal f.id),
    ftxns := db.ftxns.filter (keepRow f.id) }
  let db2 := generateForecastTransactions today today we u a f.id includeIds db0
  let fb := finalBalanceOf
    (projectBalance today db2.ftxns f.id u a bal today we) bal
  { db2 with forecasts := db2.forecasts.map (updateProj f.id fb) }

/-- The create branch of `generateForecast`: insert a fresh forecast (id from
    the counter), generate, and record the projected balance. -/
def generateForecastCreate (today : JSDate) (u a : Nat) (bal : ℚ) (we : JSDate)
    (includeIds : Option (List Nat)) (db : DB) : DB :=
  let fid := db.nextForecastId
  let f : ForecastRec :=
    { id := fid, userId := u, accountId := a,
      startDate := today, endDate := we, initialBalance := bal,
      projectedBalance := bal }
  let db0 : DB :=
    { db with forecasts := f :: db.forecasts, nextForecastId := fid + 1 }
  let db2 := generateForecastTransactions today today we u a fid includeIds db0
  let fb := finalBalanceOf
    (projectBalance today db2.ftxns fid u a bal today we) bal
  { db2 with forecasts := db2.forecasts.map (updateProj fid fb) }

/-- `ForecastEngine.generateForecast`: the forecast window starts today; the
    newest matching forecast is reused when one exists. -/
def generateForecast (today : JSDate) (u a : Nat) (bal : ℚ) (we : JSDate)
    (includeIds : Option (List Nat)) (db : DB) : DB :=
  match (db.forecasts.filter (forecastMatches u a)).head? with
  | some f => generateForecastUpdate today u a bal we includeIds f db
  | none => generateForecastCreate today u a bal we includeIds db

/-- The PUT /transactions/:id route restricted to an amount edit: the row (by
    position) gets the new amount and is promoted to manual when it is a
    pattern-generated row; the owning forecast's projected balance is then
    recomputed. -/
def editForecastTransactionAmount (today : JSDate) (db : DB) (idx : Nat)
    (newAmount : ℚ) : DB :=
  match db.ftxns.get? idx with
  | none => db
  | some t =>
      let newManual : Bool :=
        if !t.isManual && t.recurringPatternId.isSome then true else t.isManual
      let t2 : FTxnRow := { t with amount := newAmount, isManual := newManual }
      let db1 : DB := { db with ftxns := db.ftxns.set idx t2 }
      match (db1.forecasts.filter
          (fun f => f.id == t.forecastId && f.userId == t.userId)).head? with
      | some f =>
          let fb := finalBalanceOf
            (projectBalance today db1.ftxns f.id t.userId t.accountId
              f.initialBalance f.startDate f.endDate) f.initialBalance
          { db1 with forecasts := db1.forecasts.map (updateProj f.id fb) }
      | none => db1

/-- Stored ids are below the forecast-id counter. -/
def WellFormedDB (db : DB) : Prop :=
  (∀ t ∈ db.ftxns, t.forecastId < db.nextForecastId)
    ∧ ∀ f ∈ db.forecasts, f.id < db.nextForecastId

def nonManualCount (db : DB) : Nat :=
  (db.ftxns.filter (fun t => t.isManual == false)).length

theorem stageOcc_shape (today : JSDate) (u a fid : Nat) (p : PatternRow)
    (st : List TxnKey × List FTxnRow) (d : JSDate)
    (h : ∀ t ∈ st.2, t.forecastId = fid ∧ t.isManual = false) :
    ∀ t ∈ (stageOcc today u a fid p st d).2,
      t.forecastId = fid ∧ t.isManual = false := by
  unfold stageOcc
  split
  · split
    · exact h
    · intro t ht
      rcases List.mem_append.mp ht with h1 | h1
      · exact h t h1
      · have he : t = stagedRow u a fid p d := by simpa using h1
        subst he
        exact ⟨rfl, rfl⟩
  · exact h

theorem stageOccs_shape (today : JSDate) (u a fid : Nat) (p : PatternRow)
    (ds : List JSDate) :
    ∀ st : List TxnKey × List FTxnRow,
      (∀ t ∈ st.2, t.forecastId = fid ∧ t.isManual = false) →
      ∀ t ∈ (ds.foldl (stageOcc today u a fid p) st).2,
        t.forecastId = fid ∧ t.isManual = false := by
  induction ds with
  | nil => intro st h; exact h
  | cons d ds ih =>
      intro st h
      exact ih _ (stageOcc_shape today u a fid p st d h)

theorem stageAllAux_shape (today ws we : JSDate) (u a fid : Nat)
    (pats : List PatternRow) :
    ∀ st : List TxnKey × List FTxnRow,
      (∀ t ∈ st.2, t.forecastId = fid ∧ t.isManual = false) →
      ∀ t ∈ (pats.foldl (fun st p =>
          (calculateNextOccurrences p ws we).foldl (stageOcc today u a fid p) st)
        st).2, t.forecastId = fid ∧ t.isManual = false := by
  induction pats with
  | nil => intro st h; exact h
  | cons p ps ih =>
      intro st h
      exact ih _ (stageOccs_shape today u a fid p _ st h)

theorem stageAll_shape (today ws we : JSDate) (u a fid : Nat)
    (pats : List PatternRow) (ftxns : List FTxnRow) :
    ∀ t ∈ stageAll today ws we u a fid pats ftxns,
      t.forecastId = fid ∧ t.isManual = false := by
  unfold stageAll
  exact stageAllAux_shape today ws we u a fid pats (existingKeys fid ftxns, [])
    (by simp)

theorem keepRow_stageAll (today ws we : JSDate) (u a fid : Nat)
    (pats : List PatternRow) (ftxns : List FTxnRow) :
    ∀ t ∈ stageAll today ws we u a fid pats ftxns, keepRow fid t = false := by
  intro t ht
  obtain ⟨h1, h2⟩ := stageAll_shape today ws we u a fid pats ftxns t ht
  simp [keepRow, h1, h2]

theorem insertLoop_append (fid : Nat) (l : List FTxnRow) :
    ∀ base, ∃ sub, insertLoop fid base l = base ++ sub ∧ ∀ t ∈ sub, t ∈ l := by
  induction l with
  | nil => intro base; exact ⟨[], (List.append_nil base).symm, by simp⟩
  | cons txn rest ih =>
      intro base
      simp only [insertLoop]
      split
      · obtain ⟨sub, he, hm⟩ := ih base
        exact ⟨sub, he, fun t ht => List.mem_cons_of_mem _ (hm t ht)⟩
      · obtain ⟨sub, he, hm⟩ := ih (base ++ [txn])
        refine ⟨txn :: sub, ?_, ?_⟩
        · rw [he, List.append_assoc]
          rfl
        · intro t ht
          rcases List.mem_cons.mp ht with h1 | h1
          · rw [h1]; exact List.mem_cons_self txn rest
          · exact List.mem_cons_of_mem _ (hm t h1)

theorem filter_insertLoop (fid : Nat) (p : FTxnRow → Bool) (base l : List FTxnRow)
    (h : ∀ t ∈ l, p t = false) :
    (insertLoop fid base l).filter p = base.filter p := by
  obtain ⟨sub, he, hm⟩ := insertLoop_append fid l base
  rw [he, List.filter_append]
  have hnil : sub.filter p = [] := by
    rw [List.filter_eq_nil_iff]
    intro t ht
    simp [h t (hm t ht)]
  rw [hnil, List.append_nil]

theorem filter_map_pres {β : Type} (φ : β → Bool) (g : β → β)
    (hg : ∀ x, φ (g x) = φ x) (l : List β) :
    (l.map g).filter φ = (l.filter φ).map g := by
  induction l with
  | nil => rfl
  | cons x xs ih =>
      simp only [List.map_cons, List.filter_cons, hg x]
      cases h : φ x
      · simp [ih]
      · simp [ih]

theorem head_filter_map {β : Type} (φ : β → Bool) (g : β → β)
    (hg : ∀ x, φ (g x) = φ x) (l : List β) :
    ((l.map g).filter φ).head? = ((l.filter φ).head?).map g := by
  rw [filter_map_pres φ g hg l, List.head?_map]

theorem updateWindow_id (ws we : JSDate) (bal : ℚ) (fid : Nat) (g : ForecastRec) :
    (updateWindow ws we bal fid g).id = g.id := by
  unfold updateWindow
  split <;> rfl

theorem updateProj_id (fid : Nat) (fb : ℚ) (g : ForecastRec) :
    (updateProj fid fb g).id = g.id := by
  unfold updateProj
  split <;> rfl

theorem forecastMatches_updateWindow (u a : Nat) (ws we : JSDate) (bal : ℚ)
    (fid : Nat) (g : ForecastRec) :
    forecastMatches u a (updateWindow ws we bal fid g) = forecastMatches u a g := by
  unfold updateWindow
  split <;> rfl

theorem forecastMatches_updateProj (u a fid : Nat) (fb : ℚ) (g : ForecastRec) :
    forecastMatches u a (updateProj fid fb g) = forecastMatches u a g := by
  unfold updateProj
  split <;> rfl

theorem generateForecastUpdate_ftxns (today : JSDate) (u a : Nat) (bal : ℚ)
    (we : JSDate) (inc : Option (List Nat)) (f : ForecastRec) (db : DB) :
    (generateForecastUpdate today u a bal we inc f db).ftxns
      = insertLoop f.id (db.ftxns.filter (keepRow f.id))
          (stageAll today today we u a f.id
            (db.patterns.filter (patternFilter u a inc))
            (db.ftxns.filter (keepRow f.id))) := rfl

theorem generateForecastUpdate_patterns (today : JSDate) (u a : Nat) (bal : ℚ)
    (we : JSDate) (inc : Option (List Nat)) (f : ForecastRec) (db : DB) :
    (generateForecastUpdate today u a bal we inc f db).patterns = db.patterns := rfl

theorem generateForecastUpdate_forecasts (today : JSDate) (u a : Nat) (bal : ℚ)
    (we : JSDate) (inc : Option (List Nat)) (f : ForecastRec) (db : DB) :
    ∃ fb, (generateForecastUpdate today u a bal we inc f db).forecasts
      = (db.forecasts.map (updateWindow today we bal f.id)).map
          (updateProj f.id fb) :=
  ⟨_, rfl⟩

def newForecastRec (today we : JSDate) (u a : Nat) (bal : ℚ) (fid : Nat) :
    ForecastRec :=
  { id := fid, userId := u, accountId := a, startDate := today, endDate := we,
    initialBalance := bal, projectedBalance := bal }

theorem generateForecastCreate_ftxns (today : JSDate) (u a : Nat) (bal : ℚ)
    (we : JSDate) (inc : Option (List Nat)) (db : DB) :
    (generateForecastCreate today u a bal we inc db).ftxns
      = insertLoop db.nextForecastId db.ftxns
          (stageAll today today we u a db.nextForecastId
            (db.patterns.filter (patternFilter u a inc)) db.ftxns) := rfl

theorem generateForecastCreate_patterns (today : JSDate) (u a : Nat) (bal : ℚ)
    (we : JSDate) (inc : Option (List Nat)) (db : DB) :
    (generateForecastCreate today u a bal we inc db).patterns = db.patterns := rfl

theorem generateForecastCreate_forecasts (today : JSDate) (u a : Nat) (bal : ℚ)
    (we : JSDate) (inc : Option (List Nat)) (db : DB) :
    ∃ fb, (generateForecastCreate today u a bal we inc db).forecasts
      = ((newForecastRec today we u a bal db.nextForecastId) :: db.forecasts).map
          (updateProj db.nextForecastId fb) :=
  ⟨_, rfl⟩

theorem generateForecast_none (today : JSDate) (u a : Nat) (bal : ℚ)
    (we : JSDate) (inc : Option (List Nat)) (db : DB)
    (h : (db.forecasts.filter (forecastMatches u a)).head? = none) :
    generateForecast today u a bal we inc db
      = generateForecastCreate today u a bal we inc db := by
  unfold generateForecast
  rw [h]

theorem generateForecast_some (today : JSDate) (u a : Nat) (bal : ℚ)
    (we : JSDate) (inc : Option (List Nat)) (db : DB) (f : ForecastRec)
    (h : (db.forecasts.filter (forecastMatches u a)).head? = some f) :
    generateForecast today u a bal we inc db
      = generateForecastUpdate today u a bal we inc f db := by
  unfold generateForecast
  rw [h]

theorem generateForecast_ftxns_stable (today we : JSDate) (u a : Nat) (bal : ℚ)
    (inc : Option (List Nat)) (db : DB) (hwf : WellFormedDB db) :
    (generateForecast today u a bal we inc
        (generateForecast today u a bal we inc db)).ftxns
      = (generateForecast today u a bal we inc db).ftxns := by
  obtain ⟨hwt, hwfor⟩ := hwf
  cases h : (db.forecasts.filter (forecastMatches u a)).head? with
  | none =>
      rw [generateForecast_none today u a bal we inc db h]
      obtain ⟨fb, hfor⟩ := generateForecastCreate_forecasts today u a bal we inc db
      have hmatch : forecastMatches u a
          (newForecastRec today we u a bal db.nextForecastId) = true := by
        simp [forecastMatches, newForecastRec]
      have hh2 : ((generateForecastCreate today u a bal we inc db).forecasts.filter
            (forecastMatches u a)).head?
          = some (updateProj db.nextForecastId fb
              (newForecastRec today we u a bal db.nextForecastId)) := by
        rw [hfor, head_filter_map _ _ (forecastMatches_updateProj u a db.nextForecastId fb)]
        rw [List.filter_cons, hmatch]
        simp
      rw [generateForecast_some today u a bal we inc _ _ hh2]
      have hid : (updateProj db.nextForecastId fb
          (newForecastRec today we u a bal db.nextForecastId)).id
            = db.nextForecastId := by
        rw [updateProj_id]
        rfl
      rw [generateForecastUpdate_ftxns, hid, generateForecastCreate_patterns,
        generateForecastCreate_ftxns]
      have hclean : (insertLoop db.nextForecastId db.ftxns
            (stageAll today today we u a db.nextForecastId
              (db.patterns.filter (patternFilter u a inc)) db.ftxns)).filter
            (keepRow db.nextForecastId) = db.ftxns := by
        rw [filter_insertLoop _ _ _ _
          (keepRow_stageAll today today we u a db.nextForecastId _ db.ftxns)]
        apply List.filter_eq_self.mpr
        intro t ht
        have hlt := hwt t ht
        have hne : (t.forecastId == db.nextForecastId) = false := by
          simp
          omega
        simp [keepRow, hne]
      rw [hclean]
  | some f =>
      rw [generateForecast_some today u a bal we inc db f h]
      obtain ⟨fb, hfor⟩ := generateForecastUpdate_forecasts today u a bal we inc f db
      have hh2 : ((generateForecastUpdate today u a bal we inc f db).forecasts.filter
            (forecastMatches u a)).head?
          = some (updateProj f.id fb (updateWindow today we bal f.id f)) := by
        rw [hfor, head_filter_map _ _ (forecastMatches_updateProj u a f.id fb),
          head_filter_map _ _ (forecastMatches_updateWindow u a today we bal f.id), h]
        rfl
      rw [generateForecast_some today u a bal we inc _ _ hh2]
      have hid : (updateProj f.id fb (updateWindow today we bal f.id f)).id = f.id := by
        rw [updateProj_id, updateWindow_id]
      rw [generateForecastUpdate_ftxns, hid, generateForecastUpdate_patterns,
        generateForecastUpdate_ftxns]
      have hclean : (insertLoop f.id (db.ftxns.filter (keepRow f.id))
            (stageAll today today we u a f.id
              (db.patterns.filter (patternFilter u a inc))
              (db.ftxns.filter (keepRow f.id)))).filter (keepRow f.id)
          = db.ftxns.filter (keepRow f.id) := by
        rw [filter_insertLoop _ _ _ _
          (keepRow_stageAll today today we u a f.id _ _)]
        apply List.filter_eq_self.mpr
        intro t ht
        exact (List.mem_filter.mp ht).2
      rw [hclean]

/-- C2: a second `generateForecast` call with the same window reuses the
    newest matching forecast, deletes its non-manual rows, and re-inserts the
    same occurrences, leaving the forecast-transaction table — hence the
    non-manual row count — exactly as after the first call. -/
theorem generateForecast_no_duplicate_regeneration (today we : JSDate)
    (u a : Nat) (bal : ℚ) (inc : Option (List Nat)) (db : DB)
    (hwf : WellFormedDB db) :
    nonManualCount (generateForecast today u a bal we inc
        (generateForecast today u a bal we inc db))
      = nonManualCount (generateForecast today u a bal we inc db) := by
  unfold nonManualCount
  rw [generateForecast_ftxns_stable today we u a bal inc db hwf]

def dbOne : DB :=
  { patterns := [rentPattern], forecasts := [], ftxns := [], nextForecastId := 1 }

/-- C2 (witness): regenerating the one-pattern forecast leaves one non-manual
    row, the same count as after the first generation. -/
theorem generateForecast_no_duplicate_regeneration_witness :
    WellFormedDB dbOne
      ∧ nonManualCount (generateForecast ⟨2, 0, 1⟩ 1 1 1000 ⟨2, 1, 15⟩ none
            (generateForecast ⟨2, 0, 1⟩ 1 1 1000 ⟨2, 1, 15⟩ none dbOne))
          = nonManualCount (generateForecast ⟨2, 0, 1⟩ 1 1 1000 ⟨2, 1, 15⟩ none dbOne)
      ∧ nonManualCount (generateForecast ⟨2, 0, 1⟩ 1 1 1000 ⟨2, 1, 15⟩ none dbOne) = 1 :=
  ⟨⟨by simp [dbOne], by simp [dbOne]⟩,
   generateForecast_no_duplicate_regeneration ⟨2, 0, 1⟩ ⟨2, 1, 15⟩ 1 1 1000 none dbOne
     ⟨by simp [dbOne], by simp [dbOne]⟩,
   by decide⟩

def editedRentRow : FTxnRow :=
  { userId := 1, accountId := 1, forecastId := 1, recurringPatternId := some 5,
    isManual := true, amount := -250, date := ⟨2, 1, 10⟩, name := "Rent" }

def freshRentRow : FTxnRow :=
  { userId := 1, accountId := 1, forecastId := 1, recurringPatternId := some 5,
    isManual := false, amount := -200, date := ⟨2, 1, 10⟩, name := "Rent" }

/-- C3: editing a pattern-derived row's amount (which flips it to manual while
    keeping its pattern link) does NOT stop regeneration from re-inserting the
    pattern's row: the staged key uses the pattern's rounded amount, which no
    longer matches the edited row's key, and the insert-time `findFirst` only
    scans amounts within ±0.01 of the staged amount — so after regenerating,
    the table holds both the edited row and a fresh non-manual row with the
    pattern's original amount, date and name. -/
theorem edited_amount_regeneration_duplicate :
    (generateForecast ⟨2, 0, 1⟩ 1 1 1000 ⟨2, 1, 15⟩ none
        (editForecastTransactionAmount ⟨2, 0, 1⟩
          (generateForecast ⟨2, 0, 1⟩ 1 1 1000 ⟨2, 1, 15⟩ none dbOne)
          0 (-250))).ftxns
      = [editedRentRow, freshRentRow]
      ∧ editedRentRow.isManual = true ∧ editedRentRow.amount = -250
      ∧ editedRentRow.recurringPatternId = some rentPattern.id
      ∧ freshRentRow.isManual = false ∧ freshRentRow.amount = -200
      ∧ freshRentRow.recurringPatternId = some rentPattern.id
      ∧ freshRentRow.date = editedRentRow.date
      ∧ freshRentRow.name = rentPattern.name
      ∧ signedPatternAmount rentPattern = freshRentRow.amount := by
  decide

theorem groupStep_avg_nonneg (groups : List (GroupKey × TransactionGroup))
    (t : HistTxn) (h : ∀ e ∈ groups, 0 ≤ e.2.averageAmount) :
    ∀ e ∈ groupStep groups t, 0 ≤ e.2.averageAmount := by
  intro e he
  simp only [groupStep] at he
  split at he
  · split at he
    · rcases List.mem_or_eq_of_mem_set he with h1 | h1
      · exact h e h1
      · subst h1
        apply div_nonneg
        · apply List.sum_nonneg
          intro x hx
          obtain ⟨v, hv, hxe⟩ := List.mem_map.mp hx
          rw [← hxe]
          exact abs_nonneg _
        · exact Nat.cast_nonneg _
    · exact h e he
  · unfold mapSet at he
    split at he
    · rcases List.mem_or_eq_of_mem_set he with h1 | h1
      · exact h e h1
      · subst h1
        exact abs_nonneg _
    · rcases List.mem_append.mp he with h1 | h1
      · exact h e h1
      · have he2 := List.mem_singleton.mp h1
        subst he2
        exact abs_nonneg _

theorem groupTransactions_avg_nonneg (txns : List HistTxn) :
    ∀ g ∈ groupTransactions txns, 0 ≤ g.averageAmount := by
  have aux : ∀ (l : List HistTxn) (init : List (GroupKey × TransactionGroup)),
      (∀ e ∈ init, 0 ≤ e.2.averageAmount) →
      ∀ e ∈ l.foldl groupStep init, 0 ≤ e.2.averageAmount := by
    intro l
    induction l with
    | nil => intro init h; exact h
    | cons t ts ih =>
        intro init h
        exact ih _ (groupStep_avg_nonneg init t h)
  intro g hg
  unfold groupTransactions at hg
  obtain ⟨e, he, hge⟩ := List.mem_map.mp hg
  rw [← hge]
  exact aux txns [] (by simp) e he

/-- C8: the detector stores group average amounts, which are nonnegative, and
    the manual-transaction route stores `Math.abs(amount)`; forecast generation
    derives the emitted sign solely from the pattern's transactionType (the
    staged row's amount is exactly the type-signed pattern amount, nonpositive
    for expense and nonnegative for income regardless of the stored sign).
    The create-from-transaction route is the exception — see the
    counterexample. -/
theorem pattern_amount_conventions (sqrtFn : ℚ → ℚ) (u a : Nat)
    (txns : List HistTxn) (minConf : ℚ) (nm : String) (amt : ℚ)
    (tt : TransactionType) (freq : Frequency) (dom dow : Option Nat)
    (td : JSDate) (ed : Option JSDate) (p : PatternRow) :
    (∀ q ∈ detectPatterns sqrtFn u a txns minConf, 0 ≤ q.amount)
      ∧ 0 ≤ (createManualRecurringPattern u a nm amt tt freq dom dow td ed).amount
      ∧ signedPatternAmount { p with transactionType := .expense } ≤ 0
      ∧ 0 ≤ signedPatternAmount { p with transactionType := .income }
      ∧ ∀ (uu aa fid : Nat) (d : JSDate),
          (stagedRow uu aa fid p d).amount = signedPatternAmount p := by
  refine ⟨?_, ?_, ?_, ?_, fun uu aa fid d => rfl⟩
  · intro q hq
    obtain ⟨g, fa, -, -, -, -, -, -, hamt, hg⟩ :=
      detectPatterns_fields sqrtFn u a txns minConf q hq
    rw [hamt]
    exact groupTransactions_avg_nonneg txns g hg
  · exact abs_nonneg _
  · simp [signedPatternAmount]
  · simp [signedPatternAmount]

def refundTxn : HistTxn :=
  { name := "Refund Service", merchantName := "refund service",
    amount := -50, date := ⟨1, 0, 5⟩ }

/-- C8 (counterexample): the create-from-transaction route stores the signed
    amount: from an expense transaction of -50 (and no caller override) the
    persisted pattern's amount is -50, not a positive amount. -/
theorem create_from_transaction_negative_amount :
    (createPatternFromTransaction 1 refundTxn 1 .monthly (some 5) none
        none none).amount = -50
      ∧ (createPatternFromTransaction 1 refundTxn 1 .monthly (some 5) none
          none none).amount < 0 := by
  decide
